import Mathlib

/-!
Verification of the HTTP query-API wrapper's core algorithms: the value
codec (`src/http-connection/query.codec.ts`, `src/http-connection/codec.ts`),
the result-stream observer and its finite-state machine
(`stream-observers.ts` / `fsm.ts`), and the work pipeline
(`src/http-connection/lang/pipe.ts`).

JavaScript strings are modelled as `List Char`; JavaScript numbers are
modelled as exact decimal values (sign, integer part, fraction digits),
which captures the `toString`/`parseFloat` behaviour of every finite
double on the decimal strings this codec produces and consumes.
-/

namespace QueryApi

/-- JavaScript strings, modelled as lists of characters. -/
abbrev JStr := List Char

/-- The decimal digit character for `n < 10` (models JS number formatting). -/
def digitChar (n : ℕ) : Char := Char.ofNat (48 + n)

/-- Is the character a decimal digit (`'0'..'9'`)? -/
def isDigitCh (c : Char) : Bool := '0' ≤ c && c ≤ '9'

/-- Decimal rendering of a natural number, as produced by JS
`Number.prototype.toString` / `BigInt.prototype.toString` on
non-negative values. -/
def natToDigits (n : ℕ) : JStr :=
  if _h : n < 10 then [digitChar n]
  else natToDigits (n / 10) ++ [digitChar (n % 10)]
  decreasing_by exact Nat.div_lt_self (by omega) (by omega)

/-- Parse a string of decimal digits into a natural number (the digit
accumulation both `BigInt(...)` and `Integer.fromString` perform on
well-formed numeric strings). -/
def parseNatDigits (s : JStr) : ℕ :=
  s.foldl (fun acc c => 10 * acc + (c.toNat - 48)) 0

/-- Decimal rendering of an integer (JS `toString`, with a leading `-`
for negative values). -/
def intToDigits (i : ℤ) : JStr :=
  if i < 0 then '-' :: natToDigits (-i).toNat else natToDigits i.toNat

/-- Parse an optionally signed decimal string (models `BigInt(...)` and
`int(...)` on well-formed numeric strings). -/
def parseJsInt (s : JStr) : ℤ :=
  if s.head? = some '-' then -(parseNatDigits s.tail : ℤ)
  else if s.head? = some '+' then (parseNatDigits s.tail : ℤ)
  else (parseNatDigits s : ℤ)

theorem parseNatDigits_append (a b : JStr) :
    parseNatDigits (a ++ b) =
      b.foldl (fun acc c => 10 * acc + (c.toNat - 48)) (parseNatDigits a) := by
  simp [parseNatDigits, List.foldl_append]

theorem parseNatDigits_snoc (a : JStr) (c : Char) :
    parseNatDigits (a ++ [c]) = 10 * parseNatDigits a + (c.toNat - 48) := by
  simp [parseNatDigits_append, List.foldl]

theorem digitChar_toNat (n : ℕ) (h : n < 10) : (digitChar n).toNat = 48 + n := by
  interval_cases n <;> rfl

/-- A digit character is a digit. -/
theorem isDigitCh_digitChar (n : ℕ) (h : n < 10) : isDigitCh (digitChar n) = true := by
  interval_cases n <;> decide

/-- `parseNatDigits` inverts `natToDigits`. -/
theorem parseNatDigits_natToDigits (n : ℕ) : parseNatDigits (natToDigits n) = n := by
  induction n using Nat.strong_induction_on with
  | _ n ih =>
    rw [natToDigits]
    by_cases h : n < 10
    · rw [dif_pos h]
      simp [parseNatDigits, List.foldl, digitChar_toNat n h]
    · rw [dif_neg h]
      rw [parseNatDigits_snoc, ih (n / 10) (Nat.div_lt_self (by omega) (by omega))]
      rw [digitChar_toNat (n % 10) (Nat.mod_lt _ (by omega))]
      omega

/-- Every character `natToDigits` emits is a decimal digit. -/
theorem natToDigits_digits (n : ℕ) : ∀ c ∈ natToDigits n, isDigitCh c = true := by
  induction n using Nat.strong_induction_on with
  | _ n ih =>
    rw [natToDigits]
    by_cases h : n < 10
    · rw [dif_pos h]
      intro c hc
      rw [List.mem_singleton] at hc
      subst hc
      exact isDigitCh_digitChar n h
    · rw [dif_neg h]
      intro c hc
      rw [List.mem_append, List.mem_singleton] at hc
      rcases hc with hc | rfl
      · exact ih (n / 10) (Nat.div_lt_self (by omega) (by omega)) c hc
      · exact isDigitCh_digitChar _ (Nat.mod_lt _ (by omega))

theorem natToDigits_ne_nil (n : ℕ) : natToDigits n ≠ [] := by
  rw [natToDigits]
  by_cases h : n < 10 <;> simp [h]

/-- A non-digit character does not occur in a digit string. -/
theorem not_mem_of_digits (s : JStr) (hs : ∀ c ∈ s, isDigitCh c = true)
    (c : Char) (hc : isDigitCh c = false) : c ∉ s := by
  intro hmem
  have := hs c hmem
  simp [this] at hc

/-- JS `String.prototype.split` with a one-character separator. -/
def jsSplit (sep : Char) : JStr → List JStr
  | [] => [[]]
  | c :: rest =>
    if c = sep then [] :: jsSplit sep rest
    else
      match jsSplit sep rest with
      | [] => [[c]]
      | r :: rs => (c :: r) :: rs

theorem jsSplit_ne_nil (sep : Char) (s : JStr) : jsSplit sep s ≠ [] := by
  induction s with
  | nil => simp [jsSplit]
  | cons c rest ih =>
    simp only [jsSplit]
    split
    · simp
    · cases h : jsSplit sep rest <;> simp

/-- Splitting a separator-free string yields that string alone. -/
theorem jsSplit_no_sep (sep : Char) (s : JStr) (h : sep ∉ s) :
    jsSplit sep s = [s] := by
  induction s with
  | nil => rfl
  | cons c rest ih =>
    simp only [List.mem_cons, not_or] at h
    have hcs : ¬c = sep := fun hh => h.1 hh.symm
    simp only [jsSplit, if_neg hcs]
    rw [ih h.2]

/-- Splitting peels off the first separator-free chunk. -/
theorem jsSplit_append (sep : Char) (a b : JStr) (h : sep ∉ a) :
    jsSplit sep (a ++ sep :: b) = a :: jsSplit sep b := by
  induction a with
  | nil => simp [jsSplit]
  | cons c rest ih =>
    simp only [List.mem_cons, not_or] at h
    have hcs : ¬c = sep := fun hh => h.1 hh.symm
    simp only [List.cons_append, jsSplit, if_neg hcs]
    rw [show rest.append (sep :: b) = rest ++ sep :: b from rfl, ih h.2]

/-! ## Base64 (JS `btoa`/`atob`) -/

/-- The RFC 4648 base64 alphabet. -/
def b64Alphabet : JStr :=
  String.toList "ABCDEFGHIJKLMNOPQRSTUVWXYZabcdefghijklmnopqrstuvwxyz0123456789+/"

/-- The base64 digit for a 6-bit value. -/
def b64Char (n : ℕ) : Char := b64Alphabet.getD n '?'

/-- The 6-bit value of a base64 digit (`none` for characters outside the
alphabet, e.g. `'='`). -/
def b64Index (c : Char) : Option ℕ := b64Alphabet.indexOf? c

/-- Base64-encode a byte sequence (the effect of JS
`btoa(String.fromCharCode(...bytes))`). -/
def b64encode : List ℕ → JStr
  | [] => []
  | [a] => [b64Char (a / 4), b64Char (a % 4 * 16), '=', '=']
  | [a, b] => [b64Char (a / 4), b64Char (a % 4 * 16 + b / 16), b64Char (b % 16 * 4), '=']
  | a :: b :: c :: rest =>
    b64Char (a / 4) :: b64Char (a % 4 * 16 + b / 16) ::
      b64Char (b % 16 * 4 + c / 64) :: b64Char (c % 64) :: b64encode rest

/-- Base64-decode into bytes (JS `atob`, with `none` modelling the
`InvalidCharacterError` thrown on malformed input). -/
def b64decode : JStr → Option (List ℕ)
  | [] => some []
  | c1 :: c2 :: c3 :: c4 :: rest => do
    let v1 ← b64Index c1
    let v2 ← b64Index c2
    if c3 = '=' && c4 = '=' && rest.isEmpty then
      some [v1 * 4 + v2 / 16]
    else if c4 = '=' && rest.isEmpty then do
      let v3 ← b64Index c3
      some [v1 * 4 + v2 / 16, v2 % 16 * 16 + v3 / 4]
    else do
      let v3 ← b64Index c3
      let v4 ← b64Index c4
      let tail ← b64decode rest
      some ((v1 * 4 + v2 / 16) :: (v2 % 16 * 16 + v3 / 4) :: (v3 % 4 * 64 + v4) :: tail)
  | _ => none

theorem b64Index_b64Char (v : ℕ) (h : v < 64) : b64Index (b64Char v) = some v := by
  interval_cases v <;> decide

theorem b64Char_ne_eq (v : ℕ) (h : v < 64) : (b64Char v = '=') = False := by
  interval_cases v <;> decide

/-- Decoding inverts encoding on byte sequences. -/
theorem b64decode_b64encode (bs : List ℕ) (h : ∀ b ∈ bs, b < 256) :
    b64decode (b64encode bs) = some bs := by
  match bs with
  | [] => rfl
  | [a] =>
    have ha : a < 256 := h a (by simp)
    rw [b64encode, b64decode]
    rw [b64Index_b64Char _ (by omega), b64Index_b64Char _ (by omega)]
    simp only [Option.bind_eq_bind, Option.some_bind]
    simp only [List.isEmpty_nil, Bool.and_true, Bool.and_self, decide_True, if_true]
    simp only [Option.some.injEq, List.cons.injEq, and_true]
    omega
  | [a, b] =>
    have ha : a < 256 := h a (by simp)
    have hb : b < 256 := h b (by simp)
    rw [b64encode, b64decode]
    rw [b64Index_b64Char _ (by omega), b64Index_b64Char _ (by omega),
      b64Index_b64Char _ (by omega)]
    simp [b64Char_ne_eq (b % 16 * 4) (by omega)]
    constructor <;> omega
  | a :: b :: c :: rest =>
    have ha : a < 256 := h a (by simp)
    have hb : b < 256 := h b (by simp)
    have hc : c < 256 := h c (by simp)
    have ih := b64decode_b64encode rest (fun x hx => h x (by simp [hx]))
    rw [b64encode, b64decode]
    rw [b64Index_b64Char _ (by omega), b64Index_b64Char _ (by omega),
      b64Index_b64Char _ (by omega), b64Index_b64Char _ (by omega)]
    simp only [Option.bind_eq_bind, Option.some_bind,
      b64Char_ne_eq (b % 16 * 4 + c / 64) (by omega),
      b64Char_ne_eq (c % 64) (by omega)]
    rw [ih]
    simp [b64Char_ne_eq (b % 16 * 4 + c / 64) (by omega), b64Char_ne_eq (c % 64) (by omega)]
    refine ⟨by omega, by omega, by omega⟩

/-- JS `btoa`: base64 of a string of Latin-1 code points; throws
`InvalidCharacterError` on code points above 255. -/
def btoa (s : JStr) : Except String JStr :=
  if s.all (fun c => c.toNat < 256) then .ok (b64encode (s.map Char.toNat))
  else .error "InvalidCharacterError"

/-! ## Authorization header (`codec.ts` `encodeAuthToken` and
`query.codec.ts` `QueryRequestCodec.authorization`) -/

/-- An auth token as produced by the driver's `auth.basic`/`auth.bearer`/
`auth.custom` helpers. -/
structure AuthToken where
  scheme : JStr
  principal : JStr
  credentials : JStr

/-- `encodeAuthToken` from `src/http-connection/codec.ts`: switches on the
scheme, producing a `Basic`/`Bearer` header or throwing (modelled by
`Except.error`) for any other scheme, with no I/O involved. -/
def encodeAuthToken (auth : AuthToken) : Except String JStr :=
  if auth.scheme = String.toList "bearer" then
    (btoa auth.credentials).map (fun b => String.toList "Bearer " ++ b)
  else if auth.scheme = String.toList "basic" then
    (btoa (auth.principal ++ ':' :: auth.credentials)).map
      (fun b => String.toList "Basic " ++ b)
  else
    .error ("Authorization scheme \"" ++ String.mk auth.scheme ++ "\" is not supported.")

namespace QueryRequestCodec

/-- `QueryRequestCodec.authorization` from
`src/http-connection/query.codec.ts`: the same switch on the auth scheme. -/
def authorization (auth : AuthToken) : Except String JStr :=
  if auth.scheme = String.toList "bearer" then
    (btoa auth.credentials).map (fun b => String.toList "Bearer " ++ b)
  else if auth.scheme = String.toList "basic" then
    (btoa (auth.principal ++ ':' :: auth.credentials)).map
      (fun b => String.toList "Basic " ++ b)
  else
    .error ("Authorization scheme \"" ++ String.mk auth.scheme ++ "\" is not supported.")

end QueryRequestCodec

/-- C7: for every auth token, `QueryRequestCodec.authorization` agrees with
`encodeAuthToken`; a `basic` token encodes to `"Basic "` followed by
base64 of `principal ++ ":" ++ credentials`, a `bearer` token encodes to
`"Bearer "` followed by base64 of the credentials, and every other scheme
produces the unsupported-scheme error — the functions are pure, so the
failure happens before any network call. -/
theorem auth_header_encoding (t : AuthToken) :
    QueryRequestCodec.authorization t = encodeAuthToken t ∧
    (t.scheme = String.toList "basic" →
      (∀ ch ∈ t.principal ++ ':' :: t.credentials, ch.toNat < 256) →
      encodeAuthToken t =
        .ok (String.toList "Basic " ++
          b64encode ((t.principal ++ ':' :: t.credentials).map Char.toNat))) ∧
    (t.scheme = String.toList "bearer" →
      (∀ ch ∈ t.credentials, ch.toNat < 256) →
      encodeAuthToken t =
        .ok (String.toList "Bearer " ++ b64encode (t.credentials.map Char.toNat))) ∧
    (t.scheme ≠ String.toList "basic" → t.scheme ≠ String.toList "bearer" →
      encodeAuthToken t =
        .error ("Authorization scheme \"" ++ String.mk t.scheme ++ "\" is not supported.")) := by
  refine ⟨rfl, ?_, ?_, ?_⟩
  · intro hs hlt
    have : t.scheme ≠ String.toList "bearer" := by rw [hs]; decide
    rw [encodeAuthToken, if_neg this, if_pos hs, btoa, if_pos]
    · rfl
    · rw [List.all_eq_true]
      intro c hc
      simpa using hlt c hc
  · intro hs hlt
    rw [encodeAuthToken, if_pos hs, btoa, if_pos]
    · rfl
    · rw [List.all_eq_true]
      intro c hc
      simpa using hlt c hc
  · intro h1 h2
    rw [encodeAuthToken, if_neg h2, if_neg h1]

/-- Witness for `auth_header_encoding`: the concrete `basic("neo4j","password")`
token yields exactly `Basic bmVvNGo6cGFzc3dvcmQ=`, and a kerberos token is
rejected. -/
theorem auth_header_encoding_witness :
    encodeAuthToken ⟨String.toList "basic", String.toList "neo4j", String.toList "password"⟩ =
      .ok (String.toList "Basic bmVvNGo6cGFzc3dvcmQ=") ∧
    encodeAuthToken ⟨String.toList "kerberos", [], String.toList "ticket"⟩ =
      .error "Authorization scheme \"kerberos\" is not supported." := by
  constructor
  · have h := (auth_header_encoding
      ⟨String.toList "basic", String.toList "neo4j", String.toList "password"⟩).2.1
      rfl (by decide)
    rw [h]
    simp only [Except.ok.injEq]
    decide
  · have h := (auth_header_encoding
      ⟨String.toList "kerberos", [], String.toList "ticket"⟩).2.2.2
      (by decide) (by decide)
    rw [h]
    simp only [Except.error.injEq]
    rfl

/-! ## Work pipeline (`src/http-connection/lang/pipe.ts`)

Scheduling is single-threaded cooperative (spec §5), so the promise chain
built by `attach` settles strictly in submission order; the chain is
modelled by its settled value. -/

/-- The settled value of `Pipe`'s internal promise: fulfilled, or rejected
with the error of the first failed unit. -/
inductive PipeState (ε : Type) where
  | ok
  | failed (e : ε)
  deriving DecidableEq, Repr

/-- Outcome of one `attach` call: whether the unit's body ran, the settled
value of the promise `attach` returned, and the new chain state. -/
structure AttachResult (ε : Type) where
  executed : Bool
  result : Except ε Unit
  state : PipeState ε
  deriving Repr

namespace Pipe

/-- `Pipe.attach`: `this.promise = this.promise.then(work); return this.promise`.
On a fulfilled chain the unit's body runs and its outcome becomes both the
returned promise's outcome and the new chain state; on a rejected chain
`then` skips the body and re-rejects with the original error. -/
def attach (st : PipeState ε) (work : Except ε Unit) : AttachResult ε :=
  match st with
  | .ok =>
    { executed := true, result := work,
      state := match work with | .ok _ => .ok | .error e => .failed e }
  | .failed e => { executed := false, result := .error e, state := .failed e }

/-- `Pipe.recover`: `this.promise = this.promise.catch(log)` — the catch
handler swallows any failure, leaving a fulfilled chain. -/
def recover (_st : PipeState ε) : PipeState ε := .ok

/-- Submit a list of units in order, collecting each unit's
(body-executed, returned-promise outcome) pair and the final chain state. -/
def attachAll (st : PipeState ε) : List (Except ε Unit) → List (Bool × Except ε Unit) × PipeState ε
  | [] => ([], st)
  | w :: ws =>
    let r := attach st w
    let (rs, fin) := attachAll r.state ws
    ((r.executed, r.result) :: rs, fin)

theorem attachAll_failed (e : ε) (ws : List (Except ε Unit)) :
    attachAll (.failed e) ws = (ws.map fun _ => (false, Except.error e), .failed e) := by
  induction ws with
  | nil => rfl
  | cons w ws ih => simp [attachAll, attach, ih]

theorem attachAll_failed_get (e : ε) (ws : List (Except ε Unit)) (j : ℕ)
    (hj : j < ws.length) :
    (attachAll (.failed e) ws).1[j]? = some (false, Except.error e) := by
  rw [attachAll_failed]
  rw [List.getElem?_map, List.getElem?_eq_getElem hj]
  rfl

end Pipe

/-- C4: submitting units `u₀..u_{N-1}` to a fresh pipe runs them strictly in
order; if unit `k` is the first to fail (with error `e`), then units `0..k`
all execute with their own outcomes, every later unit's body never executes
and its returned promise rejects with the same original error `e`, and the
chain stays failed — until `recover()` clears it, after which a newly
attached unit executes normally. -/
theorem pipe_short_circuit (us : List (Except ε Unit)) (k : ℕ) (e : ε)
    (hk : us[k]? = some (.error e))
    (hpre : ∀ i < k, us[i]? = some (.ok ())) :
    (∀ i ≤ k, (Pipe.attachAll .ok us).1[i]? = us[i]?.map fun u => (true, u)) ∧
    (∀ j, k < j → j < us.length →
      (Pipe.attachAll .ok us).1[j]? = some (false, .error e)) ∧
    (Pipe.attachAll .ok us).2 = .failed e ∧
    (∀ w : Except ε Unit,
      Pipe.attach (Pipe.recover (Pipe.attachAll .ok us).2) w =
        { executed := true, result := w,
          state := match w with | .ok _ => .ok | .error e' => .failed e' }) := by
  induction k generalizing us with
  | zero =>
    match us with
    | [] => simp at hk
    | u :: rest =>
      simp only [List.getElem?_cons_zero, Option.some.injEq] at hk
      subst hk
      have hall : Pipe.attachAll (ε := ε) .ok ((.error e) :: rest) =
          (((true, Except.error e) :: (Pipe.attachAll (.failed e) rest).1),
            (Pipe.attachAll (.failed e) rest).2) := rfl
      refine ⟨?_, ?_, ?_, ?_⟩
      · intro i hi
        interval_cases i
        rw [hall]
        simp
      · intro j hj hjl
        rw [hall]
        match j, hj with
        | j + 1, _ =>
          simp only [List.length_cons] at hjl
          simp only [List.getElem?_cons_succ]
          exact Pipe.attachAll_failed_get e rest j (by omega)
      · rw [hall]
        simp [Pipe.attachAll_failed]
      · intro w
        rfl
  | succ k ih =>
    match us with
    | [] => simp at hk
    | u :: rest =>
      have hu : u = .ok () := by
        have := hpre 0 (by omega)
        simpa using this
      subst hu
      simp only [List.getElem?_cons_succ] at hk
      have hpre' : ∀ i < k, rest[i]? = some (.ok ()) := by
        intro i hi
        have := hpre (i + 1) (by omega)
        simpa using this
      obtain ⟨ha, hb, hc, hd⟩ := ih rest hk hpre'
      have hall : Pipe.attachAll (ε := ε) .ok ((.ok ()) :: rest) =
          (((true, Except.ok ()) :: (Pipe.attachAll .ok rest).1),
            (Pipe.attachAll .ok rest).2) := rfl
      refine ⟨?_, ?_, ?_, ?_⟩
      · intro i hi
        rw [hall]
        match i with
        | 0 => simp
        | i + 1 =>
          simp only [List.getElem?_cons_succ]
          exact ha i (by omega)
      · intro j hj hjl
        rw [hall]
        match j, hj with
        | j + 1, _ =>
          simp only [List.getElem?_cons_succ]
          exact hb j (by omega) (by simpa using hjl)
      · rw [hall]
        exact hc
      · rw [hall]
        exact hd

/-- Witness for `pipe_short_circuit`: four concrete units where the second
fails; the first two run, the last two are skipped with the same error, and
recovery lets a new unit run. -/
theorem pipe_short_circuit_witness :
    (Pipe.attachAll .ok [Except.ok (), Except.error "boom", Except.ok (), Except.ok ()]).1[2]? =
        some (false, Except.error "boom") ∧
    (Pipe.attachAll .ok [Except.ok (), Except.error "boom", Except.ok (), Except.ok ()]).1[3]? =
        some (false, Except.error "boom") ∧
    Pipe.attach (Pipe.recover
        (Pipe.attachAll .ok [Except.ok (), Except.error "boom", Except.ok (), Except.ok ()]).2)
        (Except.ok ()) = { executed := true, result := .ok (), state := .ok } := by
  have h := pipe_short_circuit
    [Except.ok (), Except.error "boom", Except.ok (), Except.ok ()] 1 "boom"
    rfl (by intro i hi; interval_cases i; rfl)
  exact ⟨h.2.1 2 (by omega) (by simp), h.2.1 3 (by omega) (by simp),
    h.2.2.2 (Except.ok ())⟩

/-! ## Result stream observer and FSM (`stream-observers.ts`, `fsm.ts`)

The `beforeError`/`afterComplete` hooks are typed `(x) => void`, so the
asynchronous continuation branch of `_onError` is dead code under the typed
interface; notification delivery is modelled synchronously. Raw records are
modelled by an opaque `ℕ` payload, server metadata by an optional `ℕ`
payload (`none` encodes the literal `false` argument of `onCompleted`). -/

/-- The four states of `newFSM`. -/
inductive FsmState where
  | READY
  | STREAMING
  | SUCCEEDED
  | FAILED
  deriving DecidableEq, Repr

/-- The completion metadata object `_onCompleted` builds: `{}` when the
event carried `false`, otherwise the server address, the decoded metadata
payload and the `stream_summary` block. -/
inductive CMeta where
  | emptyMeta
  | fullMeta (payload : ℕ) (haveRecordsStreamed : Bool) (hasKeys : Bool)
  deriving DecidableEq, Repr

/-- One callback invocation observed by a subscriber. -/
inductive Notif where
  | keys (ks : List String)
  | next (rec : List String × ℕ)
  | completed (m : CMeta)
  | error (e : String)
  deriving DecidableEq, Repr

/-- Which optional callbacks a `ResultObserver` passed to `subscribe`
defines. -/
structure SubscriberSpec where
  hasOnKeys : Bool
  hasOnNext : Bool
  hasOnCompleted : Bool
  hasOnError : Bool
  deriving DecidableEq, Repr

/-- A registered subscriber together with every notification it has
received so far. -/
structure Subscriber where
  spec : SubscriberSpec
  notifs : List Notif
  deriving DecidableEq, Repr

/-- The mutable state of a `ResultStreamObserver`. -/
structure ObsState where
  fsm : FsmState
  keys : Option (List String)
  queued : List (List String × ℕ)
  subscribers : List Subscriber
  metadata : Option CMeta
  error : Option String
  paused : Bool
  completed : Bool
  haveRecordStreamed : Bool
  highWatermark : ℕ
  lowWatermark : ℕ
  deriving DecidableEq, Repr

/-- The state built by the `ResultStreamObserver` constructor. -/
def ObsState.initial (hi lo : ℕ) : ObsState :=
  { fsm := .READY, keys := none, queued := [], subscribers := [],
    metadata := none, error := none, paused := false, completed := false,
    haveRecordStreamed := false, highWatermark := hi, lowWatermark := lo }

/-- Append a notification to every subscriber selected by `p`
(the `filter(...).forEach(...)` pattern of the source). -/
def notifyAll (p : Subscriber → Bool) (n : Notif) (subs : List Subscriber) :
    List Subscriber :=
  subs.map fun s => if p s then { s with notifs := s.notifs ++ [n] } else s

/-- `ResultStreamObserver._onKeys`. -/
def ObsState.onKeysH (s : ObsState) (ks : List String) : ObsState :=
  { s with keys := some ks,
           subscribers := notifyAll (fun x => x.spec.hasOnKeys) (.keys ks) s.subscribers }

/-- `ResultStreamObserver._onNext`: deliver immediately when some
subscriber has `onNext`, otherwise buffer and pause past the
high watermark. -/
def ObsState.onNextH (s : ObsState) (raw : ℕ) : ObsState :=
  let record := (s.keys.getD [], raw)
  if s.subscribers.any (fun x => x.spec.hasOnNext) then
    { s with haveRecordStreamed := true,
             subscribers := notifyAll (fun x => x.spec.hasOnNext) (.next record) s.subscribers }
  else
    let q := s.queued ++ [record]
    { s with haveRecordStreamed := true, queued := q,
             paused := if q.length > s.highWatermark then true else s.paused }

/-- `ResultStreamObserver._onError` (with no `beforeError` hook the
continuation runs synchronously). -/
def ObsState.onErrorH (s : ObsState) (e : String) : ObsState :=
  { s with error := some e,
           subscribers := notifyAll (fun x => x.spec.hasOnError) (.error e) s.subscribers }

/-- `ResultStreamObserver._onCompleted`. -/
def ObsState.onCompletedH (s : ObsState) (meta : Option ℕ) : ObsState :=
  let cm : CMeta :=
    match meta with
    | some p => .fullMeta p s.haveRecordStreamed ((s.keys.getD []).length > 0)
    | none => .emptyMeta
  { s with metadata := some cm, completed := true,
           subscribers := notifyAll (fun x => x.spec.hasOnCompleted) (.completed cm) s.subscribers }

/-- The four FSM events (`fsm.ts` `Events`). -/
inductive StreamEvent where
  | keys (ks : List String)
  | next (raw : ℕ)
  | error (e : String)
  | completed (meta : Option ℕ)
  deriving DecidableEq, Repr

/-- The `onInvalidTransition` error message. -/
def invalidMsg (state event : String) : String :=
  "Invalid event. State: " ++ state ++ ", Event: " ++ event

/-- One `FSM.onEvent` dispatch through the transition table of `newFSM`:
`READY+keys→STREAMING`; `STREAMING+next` stays; `STREAMING+completed→SUCCEEDED`;
`error` (and any invalid pair, via `onInvalidTransition`) → `FAILED`; both
terminal states ignore every event. -/
def stepEvent (s : ObsState) (ev : StreamEvent) : ObsState :=
  match s.fsm, ev with
  | .READY, .keys ks => { s.onKeysH ks with fsm := .STREAMING }
  | .READY, .next _ => { s.onErrorH (invalidMsg "READY" "next") with fsm := .FAILED }
  | .READY, .completed _ => { s.onErrorH (invalidMsg "READY" "completed") with fsm := .FAILED }
  | .READY, .error e => { s.onErrorH e with fsm := .FAILED }
  | .STREAMING, .keys _ => { s.onErrorH (invalidMsg "STREAMING" "keys") with fsm := .FAILED }
  | .STREAMING, .next raw => s.onNextH raw
  | .STREAMING, .completed m => { s.onCompletedH m with fsm := .SUCCEEDED }
  | .STREAMING, .error e => { s.onErrorH e with fsm := .FAILED }
  | .SUCCEEDED, _ => s
  | .FAILED, _ => s

/-- The notifications `subscribe` replays to a newly attached observer:
buffered keys, buffered records, then the terminal metadata or error. -/
def replayNotifs (s : ObsState) (fl : SubscriberSpec) : List Notif :=
  (match s.keys with
   | some ks => if fl.hasOnKeys then [Notif.keys ks] else []
   | none => []) ++
  (if fl.hasOnNext then s.queued.map Notif.next else []) ++
  (match s.metadata with
   | some m => if fl.hasOnCompleted then [Notif.completed m] else []
   | none => []) ++
  (match s.error with
   | some e => if fl.hasOnError then [Notif.error e] else []
   | none => [])

/-- `ResultStreamObserver.subscribe`: replay, resume once the replay loop
drains below the low watermark (its final iteration always does), then
register the observer; the queued-record buffer itself is left intact. -/
def subscribeH (s : ObsState) (fl : SubscriberSpec) : ObsState :=
  { s with
    subscribers := s.subscribers ++ [⟨fl, replayNotifs s fl⟩],
    paused := if s.queued ≠ [] ∧ fl.hasOnNext = true then false else s.paused }

/-- An interaction with the observer: one of the four stream events, or a
`subscribe` call. -/
inductive ObsAction where
  | event (ev : StreamEvent)
  | subscribe (fl : SubscriberSpec)
  deriving DecidableEq, Repr

/-- Apply one action. -/
def stepAction (s : ObsState) : ObsAction → ObsState
  | .event ev => stepEvent s ev
  | .subscribe fl => subscribeH s fl

/-- Run a sequence of actions from a state. -/
def runActions (s : ObsState) (acts : List ObsAction) : ObsState :=
  acts.foldl stepAction s

/-- Did the subscriber ever receive an `onCompleted` call? -/
def Subscriber.gotCompleted (sub : Subscriber) : Bool :=
  sub.notifs.any fun n => match n with | .completed _ => true | _ => false

/-- Did the subscriber ever receive an `onError` call? -/
def Subscriber.gotError (sub : Subscriber) : Bool :=
  sub.notifs.any fun n => match n with | .error _ => true | _ => false

/-- Is the action a `keys` event? -/
def ObsAction.isKeys : ObsAction → Bool
  | .event (.keys _) => true
  | _ => false

/-- The safety invariant of the observer: terminal metadata implies the
SUCCEEDED state, terminal error implies the FAILED state, and a subscriber
only ever saw a completion (resp. error) notification if the corresponding
terminal field is set. -/
def Inv (s : ObsState) : Prop :=
  (s.metadata.isSome = true → s.fsm = .SUCCEEDED) ∧
  (s.error.isSome = true → s.fsm = .FAILED) ∧
  (∀ sub ∈ s.subscribers,
    (sub.gotCompleted = true → s.metadata.isSome = true) ∧
    (sub.gotError = true → s.error.isSome = true))

theorem Inv_initial (hi lo : ℕ) : Inv (ObsState.initial hi lo) := by
  refine ⟨by simp [ObsState.initial], by simp [ObsState.initial], ?_⟩
  intro sub hsub
  simp [ObsState.initial] at hsub

theorem mem_notifyAll {sub' : Subscriber} {p : Subscriber → Bool} {n : Notif}
    {subs : List Subscriber} (h : sub' ∈ notifyAll p n subs) :
    ∃ sub ∈ subs, sub'.spec = sub.spec ∧
      (sub'.notifs = sub.notifs ∨ sub'.notifs = sub.notifs ++ [n]) := by
  rw [notifyAll, List.mem_map] at h
  obtain ⟨sub, hm, heq⟩ := h
  by_cases hp : p sub
  · rw [if_pos hp] at heq
    exact ⟨sub, hm, by rw [← heq], Or.inr (by rw [← heq])⟩
  · rw [if_neg hp] at heq
    exact ⟨sub, hm, by rw [← heq], Or.inl (by rw [← heq])⟩

theorem gotCompleted_append (sp : SubscriberSpec) (ns : List Notif) (n : Notif) :
    Subscriber.gotCompleted ⟨sp, ns ++ [n]⟩ =
      (Subscriber.gotCompleted ⟨sp, ns⟩ ||
        match n with | .completed _ => true | _ => false) := by
  simp [Subscriber.gotCompleted, List.any_append]

theorem gotError_append (sp : SubscriberSpec) (ns : List Notif) (n : Notif) :
    Subscriber.gotError ⟨sp, ns ++ [n]⟩ =
      (Subscriber.gotError ⟨sp, ns⟩ ||
        match n with | .error _ => true | _ => false) := by
  simp [Subscriber.gotError, List.any_append]

theorem gotCompleted_replay (s : ObsState) (fl : SubscriberSpec)
    (h : Subscriber.gotCompleted ⟨fl, replayNotifs s fl⟩ = true) :
    s.metadata.isSome = true := by
  simp only [Subscriber.gotCompleted, replayNotifs, List.any_append, Bool.or_eq_true,
    List.any_eq_true] at h
  rcases h with ((⟨n, hn, hc⟩ | ⟨n, hn, hc⟩) | ⟨n, hn, hc⟩) | ⟨n, hn, hc⟩
  · cases hks : s.keys <;> rw [hks] at hn
    · simp at hn
    · by_cases hfk : fl.hasOnKeys = true <;> simp [hfk] at hn
      subst hn
      simp at hc
  · by_cases hfn : fl.hasOnNext = true <;> simp [hfn] at hn
    obtain ⟨r, w, hmem, heq⟩ := hn
    subst heq
    simp at hc
  · cases hm : s.metadata <;> rw [hm] at hn
    · simp at hn
    · rfl
  · cases he : s.error <;> rw [he] at hn
    · simp at hn
    · by_cases hfe : fl.hasOnError = true <;> simp [hfe] at hn
      subst hn
      simp at hc

theorem gotError_replay (s : ObsState) (fl : SubscriberSpec)
    (h : Subscriber.gotError ⟨fl, replayNotifs s fl⟩ = true) :
    s.error.isSome = true := by
  simp only [Subscriber.gotError, replayNotifs, List.any_append, Bool.or_eq_true,
    List.any_eq_true] at h
  rcases h with ((⟨n, hn, hc⟩ | ⟨n, hn, hc⟩) | ⟨n, hn, hc⟩) | ⟨n, hn, hc⟩
  · cases hks : s.keys <;> rw [hks] at hn
    · simp at hn
    · by_cases hfk : fl.hasOnKeys = true <;> simp [hfk] at hn
      subst hn
      simp at hc
  · by_cases hfn : fl.hasOnNext = true <;> simp [hfn] at hn
    obtain ⟨r, w, hmem, heq⟩ := hn
    subst heq
    simp at hc
  · cases hm : s.metadata <;> rw [hm] at hn
    · simp at hn
    · by_cases hfc : fl.hasOnCompleted = true <;> simp [hfc] at hn
      subst hn
      simp at hc
  · cases he : s.error <;> rw [he] at hn
    · simp at hn
    · rfl

/-- `_onError` (from any non-SUCCEEDED state) preserves the invariant. -/
theorem Inv_onErrorH (s : ObsState) (e : String) (hne : s.fsm ≠ .SUCCEEDED)
    (h : Inv s) : Inv { s.onErrorH e with fsm := .FAILED } := by
  obtain ⟨h1, h2, h3⟩ := h
  have hmn : s.metadata = none := by
    cases hm : s.metadata
    · rfl
    · exact absurd (h1 (by rw [hm]; rfl)) hne
  refine ⟨?_, ?_, ?_⟩
  · intro hm
    rw [ObsState.onErrorH] at hm
    simp only at hm
    rw [hmn] at hm
    simp at hm
  · intro _
    rfl
  · intro sub hsub
    rw [ObsState.onErrorH] at hsub
    simp only at hsub
    obtain ⟨old, hold, hspec, hnot⟩ := mem_notifyAll hsub
    constructor
    · intro hg
      exfalso
      have hogc : old.gotCompleted = true := by
        rcases hnot with hn | hn
        · have : sub.gotCompleted = old.gotCompleted := by
            simp [Subscriber.gotCompleted, hn]
          rw [this] at hg
          exact hg
        · have hsub2 : sub = ⟨sub.spec, old.notifs ++ [Notif.error e]⟩ := by
            cases sub
            simpa using hn
          rw [hsub2, gotCompleted_append] at hg
          simp [Subscriber.gotCompleted] at hg
          simp [Subscriber.gotCompleted]
          exact hg
      have := (h3 old hold).1 hogc
      rw [hmn] at this
      simp at this
    · intro _
      rfl

/-- `_onKeys` from READY preserves the invariant. -/
theorem Inv_onKeysH (s : ObsState) (ks : List String) (hR : s.fsm = .READY)
    (h : Inv s) : Inv { s.onKeysH ks with fsm := .STREAMING } := by
  obtain ⟨h1, h2, h3⟩ := h
  have hmn : s.metadata = none := by
    cases hm : s.metadata
    · rfl
    · have := h1 (by rw [hm]; rfl)
      rw [hR] at this
      cases this
  have hen : s.error = none := by
    cases he : s.error
    · rfl
    · have := h2 (by rw [he]; rfl)
      rw [hR] at this
      cases this
  refine ⟨?_, ?_, ?_⟩
  · intro hm
    rw [ObsState.onKeysH] at hm
    simp only at hm
    rw [hmn] at hm
    simp at hm
  · intro he
    rw [ObsState.onKeysH] at he
    simp only at he
    rw [hen] at he
    simp at he
  · intro sub hsub
    rw [ObsState.onKeysH] at hsub
    simp only at hsub
    obtain ⟨old, hold, hspec, hnot⟩ := mem_notifyAll hsub
    have hsame : sub.gotCompleted = old.gotCompleted ∧ sub.gotError = old.gotError := by
      rcases hnot with hn | hn
      · constructor <;> simp [Subscriber.gotCompleted, Subscriber.gotError, hn]
      · have hsub2 : sub = ⟨sub.spec, old.notifs ++ [Notif.keys ks]⟩ := by
          cases sub
          simpa using hn
        rw [hsub2, gotCompleted_append, gotError_append]
        constructor <;> simp [Subscriber.gotCompleted, Subscriber.gotError]
    exact ⟨fun hg => (h3 old hold).1 (hsame.1 ▸ hg),
      fun hg => (h3 old hold).2 (hsame.2 ▸ hg)⟩

/-- `_onNext` in STREAMING preserves the invariant. -/
theorem Inv_onNextH (s : ObsState) (raw : ℕ) (h : Inv s) : Inv (s.onNextH raw) := by
  obtain ⟨h1, h2, h3⟩ := h
  rw [ObsState.onNextH]
  simp only
  by_cases hany : s.subscribers.any (fun x => x.spec.hasOnNext) = true
  · rw [if_pos hany]
    refine ⟨fun hm => h1 hm, fun he => h2 he, ?_⟩
    intro sub hsub
    simp only at hsub
    obtain ⟨old, hold, hspec, hnot⟩ := mem_notifyAll hsub
    have hsame : sub.gotCompleted = old.gotCompleted ∧ sub.gotError = old.gotError := by
      rcases hnot with hn | hn
      · constructor <;> simp [Subscriber.gotCompleted, Subscriber.gotError, hn]
      · have hsub2 : sub = ⟨sub.spec, old.notifs ++ [Notif.next (s.keys.getD [], raw)]⟩ := by
          cases sub
          simpa using hn
        rw [hsub2, gotCompleted_append, gotError_append]
        constructor <;> simp [Subscriber.gotCompleted, Subscriber.gotError]
    exact ⟨fun hg => (h3 old hold).1 (hsame.1 ▸ hg),
      fun hg => (h3 old hold).2 (hsame.2 ▸ hg)⟩
  · rw [if_neg hany]
    exact ⟨fun hm => h1 hm, fun he => h2 he, fun sub hsub => h3 sub hsub⟩

/-- Completing with any metadata object from STREAMING preserves the
invariant. -/
theorem Inv_onCompletedH_gen (s : ObsState) (cm : CMeta) (hS : s.fsm = .STREAMING)
    (h : Inv s) :
    Inv { s with metadata := some cm, completed := true,
                 subscribers :=
                   notifyAll (fun x => x.spec.hasOnCompleted) (.completed cm) s.subscribers,
                 fsm := .SUCCEEDED } := by
  obtain ⟨h1, h2, h3⟩ := h
  have hen : s.error = none := by
    cases he : s.error
    · rfl
    · have := h2 (by rw [he]; rfl)
      rw [hS] at this
      cases this
  refine ⟨?_, ?_, ?_⟩
  · intro _
    rfl
  · intro he
    simp only at he
    rw [hen] at he
    simp at he
  · intro sub hsub
    simp only at hsub
    obtain ⟨old, hold, hspec, hnot⟩ := mem_notifyAll hsub
    constructor
    · intro _
      rfl
    · intro hg
      exfalso
      have hoge : old.gotError = true := by
        rcases hnot with hn | hn
        · have : sub.gotError = old.gotError := by
            simp [Subscriber.gotError, hn]
          rw [this] at hg
          exact hg
        · have hsub2 : sub = ⟨sub.spec, old.notifs ++ [Notif.completed cm]⟩ := by
            cases sub
            simpa using hn
          rw [hsub2, gotError_append] at hg
          simp [Subscriber.gotError] at hg
          simp [Subscriber.gotError]
          exact hg
      have := (h3 old hold).2 hoge
      rw [hen] at this
      simp at this

/-- `_onCompleted` from STREAMING preserves the invariant. -/
theorem Inv_onCompletedH (s : ObsState) (m : Option ℕ) (hS : s.fsm = .STREAMING)
    (h : Inv s) : Inv { s.onCompletedH m with fsm := .SUCCEEDED } := by
  cases m with
  | none => exact Inv_onCompletedH_gen s .emptyMeta hS h
  | some p =>
    exact Inv_onCompletedH_gen s
      (.fullMeta p s.haveRecordStreamed ((s.keys.getD []).length > 0)) hS h

/-- `subscribe` preserves the invariant. -/
theorem Inv_subscribeH (s : ObsState) (fl : SubscriberSpec) (h : Inv s) :
    Inv (subscribeH s fl) := by
  obtain ⟨h1, h2, h3⟩ := h
  refine ⟨h1, h2, ?_⟩
  intro sub hsub
  rw [subscribeH] at hsub
  simp only [List.mem_append, List.mem_singleton] at hsub
  rcases hsub with hsub | rfl
  · exact h3 sub hsub
  · exact ⟨gotCompleted_replay s fl, gotError_replay s fl⟩

/-- The invariant is preserved by every action. -/
theorem Inv_step (s : ObsState) (a : ObsAction) (h : Inv s) : Inv (stepAction s a) := by
  match a with
  | .subscribe fl => exact Inv_subscribeH s fl h
  | .event ev =>
    have hterm : ∀ hs : s.fsm = .SUCCEEDED ∨ s.fsm = .FAILED,
        stepEvent s ev = s := by
      intro hs
      obtain ⟨fsm, keys, queued, subs, md, er, pa, co, hrs, hw, lw⟩ := s
      simp only at hs
      rcases hs with rfl | rfl <;> cases ev <;> rfl
    cases hf : s.fsm with
    | READY =>
      cases ev with
      | keys ks =>
        have hstep : stepAction s (.event (.keys ks)) =
            { s.onKeysH ks with fsm := .STREAMING } := by
          obtain ⟨fsm, keys, queued, subs, md, er, pa, co, hrs, hw, lw⟩ := s
          simp only at hf
          subst hf
          rfl
        rw [hstep]
        exact Inv_onKeysH s ks hf h
      | next raw =>
        have hstep : stepAction s (.event (.next raw)) =
            { s.onErrorH (invalidMsg "READY" "next") with fsm := .FAILED } := by
          obtain ⟨fsm, keys, queued, subs, md, er, pa, co, hrs, hw, lw⟩ := s
          simp only at hf
          subst hf
          rfl
        rw [hstep]
        exact Inv_onErrorH s _ (by rw [hf]; intro hh; cases hh) h
      | error e =>
        have hstep : stepAction s (.event (.error e)) =
            { s.onErrorH e with fsm := .FAILED } := by
          obtain ⟨fsm, keys, queued, subs, md, er, pa, co, hrs, hw, lw⟩ := s
          simp only at hf
          subst hf
          rfl
        rw [hstep]
        exact Inv_onErrorH s _ (by rw [hf]; intro hh; cases hh) h
      | completed m =>
        have hstep : stepAction s (.event (.completed m)) =
            { s.onErrorH (invalidMsg "READY" "completed") with fsm := .FAILED } := by
          obtain ⟨fsm, keys, queued, subs, md, er, pa, co, hrs, hw, lw⟩ := s
          simp only at hf
          subst hf
          rfl
        rw [hstep]
        exact Inv_onErrorH s _ (by rw [hf]; intro hh; cases hh) h
    | STREAMING =>
      cases ev with
      | keys ks =>
        have hstep : stepAction s (.event (.keys ks)) =
            { s.onErrorH (invalidMsg "STREAMING" "keys") with fsm := .FAILED } := by
          obtain ⟨fsm, keys, queued, subs, md, er, pa, co, hrs, hw, lw⟩ := s
          simp only at hf
          subst hf
          rfl
        rw [hstep]
        exact Inv_onErrorH s _ (by rw [hf]; intro hh; cases hh) h
      | next raw =>
        have hstep : stepAction s (.event (.next raw)) = s.onNextH raw := by
          obtain ⟨fsm, keys, queued, subs, md, er, pa, co, hrs, hw, lw⟩ := s
          simp only at hf
          subst hf
          rfl
        rw [hstep]
        exact Inv_onNextH s raw h
      | error e =>
        have hstep : stepAction s (.event (.error e)) =
            { s.onErrorH e with fsm := .FAILED } := by
          obtain ⟨fsm, keys, queued, subs, md, er, pa, co, hrs, hw, lw⟩ := s
          simp only at hf
          subst hf
          rfl
        rw [hstep]
        exact Inv_onErrorH s _ (by rw [hf]; intro hh; cases hh) h
      | completed m =>
        have hstep : stepAction s (.event (.completed m)) =
            { s.onCompletedH m with fsm := .SUCCEEDED } := by
          obtain ⟨fsm, keys, queued, subs, md, er, pa, co, hrs, hw, lw⟩ := s
          simp only at hf
          subst hf
          rfl
        rw [hstep]
        exact Inv_onCompletedH s m hf h
    | SUCCEEDED =>
      have hstep : stepAction s (.event ev) = s := hterm (Or.inl hf)
      rw [hstep]
      exact h
    | FAILED =>
      have hstep : stepAction s (.event ev) = s := hterm (Or.inr hf)
      rw [hstep]
      exact h

/-- Auxiliary: folding preserves the invariant from any invariant state. -/
theorem Inv_run_aux (s : ObsState) (acts : List ObsAction) (h : Inv s) :
    Inv (acts.foldl stepAction s) := by
  induction acts generalizing s with
  | nil => exact h
  | cons a rest ih =>
    rw [List.foldl_cons]
    exact ih _ (Inv_step s a h)

/-- The invariant holds after any run from the initial state. -/
theorem Inv_runActions (hi lo : ℕ) (acts : List ObsAction) :
    Inv (runActions (ObsState.initial hi lo) acts) := by
  rw [runActions]
  exact Inv_run_aux _ acts (Inv_initial hi lo)

/-- A run containing no `keys` event leaves the machine in READY or FAILED. -/
theorem noKeys_fsm (s : ObsState) (hs : s.fsm = .READY ∨ s.fsm = .FAILED)
    (acts : List ObsAction) (h : ∀ a ∈ acts, a.isKeys = false) :
    (acts.foldl stepAction s).fsm = .READY ∨ (acts.foldl stepAction s).fsm = .FAILED := by
  induction acts generalizing s with
  | nil => exact hs
  | cons a rest ih =>
    rw [List.foldl_cons]
    refine ih (stepAction s a) ?_ (fun x hx => h x (List.mem_cons_of_mem a hx))
    have ha := h a (List.mem_cons_self a rest)
    obtain ⟨fsm, keys, queued, subs, md, er, pa, co, hrs, hw, lw⟩ := s
    simp only at hs
    match a with
    | .subscribe fl => exact hs
    | .event ev =>
      rcases hs with rfl | rfl
      · cases ev with
        | keys ks => simp [ObsAction.isKeys] at ha
        | next raw => right; rfl
        | error e => right; rfl
        | completed m => right; rfl
      · cases ev <;> (right; rfl)

/-- Stepping a `next` event from READY or FAILED lands in FAILED. -/
theorem next_from_ready_failed (s : ObsState) (r : ℕ)
    (hs : s.fsm = .READY ∨ s.fsm = .FAILED) :
    (stepEvent s (.next r)).fsm = .FAILED := by
  obtain ⟨fsm, keys, queued, subs, md, er, pa, co, hrs, hw, lw⟩ := s
  simp only at hs
  rcases hs with rfl | rfl <;> rfl

/-- C3: result-stream FSM invariants. (a) A `next` event arriving before
any `keys` event drives the machine to FAILED. (b) In a terminal state
(SUCCEEDED or FAILED) every further stream event leaves the entire state —
including all subscriber notifications — unchanged. (c) Terminal metadata
and terminal error are never both set on any run. (d) Consequently no
subscriber ever receives both a completion and an error notification. -/
theorem stream_fsm_invariants (hi lo : ℕ) (acts pre : List ObsAction) (r : ℕ)
    (hpre : ∀ a ∈ pre, a.isKeys = false) :
    (runActions (ObsState.initial hi lo) (pre ++ [.event (.next r)])).fsm = .FAILED ∧
    (∀ s : ObsState, s.fsm = .SUCCEEDED ∨ s.fsm = .FAILED →
      ∀ ev, stepEvent s ev = s) ∧
    ¬((runActions (ObsState.initial hi lo) acts).metadata.isSome = true ∧
      (runActions (ObsState.initial hi lo) acts).error.isSome = true) ∧
    (∀ sub ∈ (runActions (ObsState.initial hi lo) acts).subscribers,
      ¬(sub.gotCompleted = true ∧ sub.gotError = true)) := by
  refine ⟨?_, ?_, ?_, ?_⟩
  · rw [runActions, List.foldl_append]
    have hmid := noKeys_fsm (ObsState.initial hi lo) (Or.inl rfl) pre hpre
    rw [List.foldl_cons, List.foldl_nil]
    exact next_from_ready_failed _ r hmid
  · intro s hs ev
    obtain ⟨fsm, keys, queued, subs, md, er, pa, co, hrs, hw, lw⟩ := s
    simp only at hs
    rcases hs with rfl | rfl <;> cases ev <;> rfl
  · obtain ⟨h1, h2, h3⟩ := Inv_runActions hi lo acts
    rintro ⟨hm, he⟩
    have := (h1 hm).symm.trans (h2 he)
    cases this
  · obtain ⟨h1, h2, h3⟩ := Inv_runActions hi lo acts
    intro sub hsub
    rintro ⟨hgc, hge⟩
    have hm := (h3 sub hsub).1 hgc
    have he := (h3 sub hsub).2 hge
    have := (h1 hm).symm.trans (h2 he)
    cases this

/-- Witness for `stream_fsm_invariants`: a concrete run where a subscriber
attaches, then `next` arrives before `keys` — the machine fails — and a
full successful run never sets both terminal fields. -/
theorem stream_fsm_invariants_witness :
    (runActions (ObsState.initial 10 2)
      ([ObsAction.subscribe ⟨true, true, true, true⟩] ++
        [ObsAction.event (.next 1)])).fsm = .FAILED ∧
    ¬((runActions (ObsState.initial 10 2)
        [ObsAction.subscribe ⟨true, true, true, true⟩,
         ObsAction.event (.keys ["a"]),
         ObsAction.event (.next 1),
         ObsAction.event (.completed (some 3)),
         ObsAction.event (.error "late")]).metadata.isSome = true ∧
      (runActions (ObsState.initial 10 2)
        [ObsAction.subscribe ⟨true, true, true, true⟩,
         ObsAction.event (.keys ["a"]),
         ObsAction.event (.next 1),
         ObsAction.event (.completed (some 3)),
         ObsAction.event (.error "late")]).error.isSome = true) := by
  have h := stream_fsm_invariants 10 2
    [ObsAction.subscribe ⟨true, true, true, true⟩,
     ObsAction.event (.keys ["a"]),
     ObsAction.event (.next 1),
     ObsAction.event (.completed (some 3)),
     ObsAction.event (.error "late")]
    [ObsAction.subscribe ⟨true, true, true, true⟩] 1
    (by intro a ha; simp at ha; subst ha; rfl)
  exact ⟨h.1, h.2.2.1⟩

/-- C9: `subscribe` never removes buffered records — the queued-record
buffer is unchanged by replay — and the newly attached subscriber (when it
defines `onNext`) receives every currently buffered record, in order, among
its notifications. -/
theorem subscribe_replays_buffer (s : ObsState) (fl : SubscriberSpec)
    (hn : fl.hasOnNext = true) :
    (subscribeH s fl).queued = s.queued ∧
    ∃ sub, (subscribeH s fl).subscribers = s.subscribers ++ [sub] ∧
      sub.spec = fl ∧
      List.IsInfix (s.queued.map Notif.next) sub.notifs := by
  refine ⟨rfl, ⟨fl, replayNotifs s fl⟩, rfl, rfl, ?_⟩
  rw [replayNotifs, if_pos hn]
  refine ⟨(match s.keys with
    | some ks => if fl.hasOnKeys then [Notif.keys ks] else []
    | none => []),
    (match s.metadata with
     | some m => if fl.hasOnCompleted then [Notif.completed m] else []
     | none => []) ++
    (match s.error with
     | some e => if fl.hasOnError then [Notif.error e] else []
     | none => []), ?_⟩
  simp [List.append_assoc]

/-- Witness for `subscribe_replays_buffer`: two buffered records are
replayed to a fresh `onNext` subscriber and remain in the buffer. -/
theorem subscribe_replays_buffer_witness :
    (subscribeH
      { fsm := .STREAMING, keys := some ["k"], queued := [(["k"], 1), (["k"], 2)],
        subscribers := [], metadata := none, error := none, paused := true,
        completed := false, haveRecordStreamed := true,
        highWatermark := 1, lowWatermark := 0 }
      ⟨false, true, false, false⟩).queued = [(["k"], 1), (["k"], 2)] ∧
    ∃ sub, (subscribeH
      { fsm := .STREAMING, keys := some ["k"], queued := [(["k"], 1), (["k"], 2)],
        subscribers := [], metadata := none, error := none, paused := true,
        completed := false, haveRecordStreamed := true,
        highWatermark := 1, lowWatermark := 0 }
      ⟨false, true, false, false⟩).subscribers = [] ++ [sub] ∧
      sub.spec = ⟨false, true, false, false⟩ ∧
      List.IsInfix ([(["k"], 1), (["k"], 2)].map Notif.next) sub.notifs :=
  subscribe_replays_buffer
    { fsm := .STREAMING, keys := some ["k"], queued := [(["k"], 1), (["k"], 2)],
      subscribers := [], metadata := none, error := none, paused := true,
      completed := false, haveRecordStreamed := true,
      highWatermark := 1, lowWatermark := 0 }
    ⟨false, true, false, false⟩ rfl

/-! ## JS numbers

A finite JS double prints via `toString` as a (possibly signed) decimal
string with no trailing fraction zeros, and `parseFloat` maps that string
back to the same double. Numbers are therefore modelled as exact decimal
values — sign, integer part, fraction digits — on which this round trip is
literal. `NaN` and `undefined` coordinate slots are modelled by `Option`
at their use sites. -/

/-- A decimal JS number: sign, integer part, fraction digit list. -/
structure JSNum where
  neg : Bool
  ip : ℕ
  frac : List ℕ
  deriving DecidableEq, Repr

/-- Canonical decimal value: fraction digits below 10 with no trailing
zero (as `toString` prints the shortest form) and no negative zero. -/
def JSNum.wf (q : JSNum) : Bool :=
  q.frac.all (· < 10) &&
  (q.frac.isEmpty || q.frac.getLast? != some 0) &&
  !(q.neg && q.ip == 0 && q.frac.isEmpty)

/-- `Number.prototype.toString` on a decimal value. -/
def renderNum (q : JSNum) : JStr :=
  (if q.neg then ['-'] else []) ++ natToDigits q.ip ++
  (if q.frac.isEmpty then [] else '.' :: q.frac.map digitChar)

/-- Strip trailing zeros from a fraction digit list. -/
def stripTrailingZeros (l : List ℕ) : List ℕ :=
  (l.reverse.dropWhile (· = 0)).reverse

/-- JS `parseFloat`: parse the longest numeric prefix (optional sign,
integer digits, optional dot and fraction digits); `none` models `NaN`. -/
def parseFloat (s : JStr) : Option JSNum :=
  let neg : Bool := decide (s.head? = some '-')
  let s1 := if s.head? = some '-' ∨ s.head? = some '+' then s.tail else s
  let ipDigits := s1.takeWhile isDigitCh
  let rest1 := s1.drop ipDigits.length
  let fracDigits := if rest1.head? = some '.' then rest1.tail.takeWhile isDigitCh else []
  if ipDigits.isEmpty && fracDigits.isEmpty then none
  else
    let ip := parseNatDigits ipDigits
    let frac := stripTrailingZeros (fracDigits.map (fun c => c.toNat - 48))
    some { neg := neg && !(ip == 0 && frac.isEmpty), ip := ip, frac := frac }

theorem takeWhile_append_all {p : Char → Bool} (a b : JStr)
    (ha : ∀ c ∈ a, p c = true) :
    (a ++ b).takeWhile p = a ++ b.takeWhile p := by
  induction a with
  | nil => simp
  | cons c rest ih =>
    rw [List.cons_append, List.takeWhile_cons, if_pos (ha c (by simp))]
    rw [ih (fun x hx => ha x (by simp [hx])), List.cons_append]

/-- `stripTrailingZeros` is the identity on fractions without trailing
zeros. -/
theorem stripTrailingZeros_eq (l : List ℕ)
    (h : l = [] ∨ l.getLast? ≠ some 0) : stripTrailingZeros l = l := by
  rw [stripTrailingZeros]
  cases hl : l.reverse with
  | nil =>
    have : l = [] := by simpa using congrArg List.reverse hl
    simp [this]
  | cons x xs =>
    have hx : l.getLast? = some x := by
      rw [← List.head?_reverse, hl]
      rfl
    have hne : l ≠ [] := by
      intro hh
      rw [hh] at hx
      cases hx
    rcases h with h | h
    · exact absurd h hne
    · rw [hx] at h
      have hx0 : ¬(x = 0) := fun hh => h (by rw [hh])
      rw [List.dropWhile_cons, if_neg (by simpa using hx0)]
      rw [← hl, List.reverse_reverse]

/-- The fraction tail of a rendered number. -/
def fracTail (frac : List ℕ) : JStr :=
  if frac.isEmpty then [] else '.' :: frac.map digitChar

/-- Core of the `parseFloat`/`toString` round trip: parsing a rendered
decimal body recovers sign, integer part and fraction. -/
theorem parseFloat_core (sgn : Bool) (ip : ℕ) (frac : List ℕ)
    (hdig : ∀ d ∈ frac, d < 10)
    (hlast : frac = [] ∨ frac.getLast? ≠ some 0) :
    parseFloat ((if sgn then ['-'] else []) ++ natToDigits ip ++ fracTail frac) =
      some { neg := sgn && !(ip == 0 && frac.isEmpty), ip := ip, frac := frac } := by
  obtain ⟨d0, ds, hds⟩ : ∃ d0 ds, natToDigits ip = d0 :: ds := by
    cases hnd : natToDigits ip with
    | nil => exact absurd hnd (natToDigits_ne_nil ip)
    | cons x xs => exact ⟨x, xs, rfl⟩
  have hd0 : isDigitCh d0 = true := natToDigits_digits ip d0 (by rw [hds]; simp)
  have hd0m : d0 ≠ '-' := by
    intro hh
    rw [hh] at hd0
    cases hd0
  have hd0p : d0 ≠ '+' := by
    intro hh
    rw [hh] at hd0
    cases hd0
  have htake : (natToDigits ip ++ fracTail frac).takeWhile isDigitCh = natToDigits ip := by
    rw [takeWhile_append_all _ _ (natToDigits_digits ip)]
    have hft : (fracTail frac).takeWhile isDigitCh = [] := by
      rw [fracTail]
      by_cases hf : frac.isEmpty
      · rw [if_pos hf]
        rfl
      · rw [if_neg hf, List.takeWhile_cons, if_neg (by decide)]
    rw [hft, List.append_nil]
  have hfrac : (if ((natToDigits ip ++ fracTail frac).drop
        (natToDigits ip).length).head? = some '.' then
        ((natToDigits ip ++ fracTail frac).drop (natToDigits ip).length).tail.takeWhile
          isDigitCh
      else []) = frac.map digitChar := by
    rw [List.drop_left]
    rw [fracTail]
    by_cases hf : frac.isEmpty
    · rw [if_pos hf]
      rw [List.isEmpty_iff] at hf
      simp [hf]
    · rw [if_neg hf]
      rw [List.head?_cons, if_pos rfl, List.tail_cons]
      rw [List.takeWhile_eq_self_iff.mpr]
      intro c hc
      rw [List.mem_map] at hc
      obtain ⟨d, hd, rfl⟩ := hc
      exact isDigitCh_digitChar d (hdig d hd)
  have hmapback : (frac.map digitChar).map (fun c => c.toNat - 48) = frac := by
    rw [List.map_map]
    conv_rhs => rw [← List.map_id frac]
    apply List.map_congr_left
    intro d hd
    simp only [Function.comp_apply, id_eq]
    rw [digitChar_toNat d (hdig d hd)]
    omega
  have hstrip : stripTrailingZeros frac = frac := stripTrailingZeros_eq frac hlast
  have hipne : (natToDigits ip).isEmpty = false := by
    rw [hds]
    rfl
  cases sgn with
  | false =>
    have hs : (if (false : Bool) = true then ['-'] else []) ++ natToDigits ip ++
        fracTail frac = natToDigits ip ++ fracTail frac := by simp
    rw [hs, parseFloat]
    simp only
    have hhead : (natToDigits ip ++ fracTail frac).head? = some d0 := by
      rw [hds]
      rfl
    rw [hhead]
    have hnm : ¬(some d0 = some '-' ∨ some d0 = some '+') := by
      rintro (hh | hh) <;> simp only [Option.some.injEq] at hh
      · exact hd0m hh
      · exact hd0p hh
    rw [if_neg hnm, htake, hfrac, hipne]
    rw [Bool.false_and, if_neg (by simp : ¬(false = true))]
    rw [hmapback, hstrip]
    have hnegf : decide (some d0 = some '-') = false := by
      simp [hd0m]
    rw [hnegf, Bool.false_and]
    rw [parseNatDigits_natToDigits]
    simp
  | true =>
    have hs : (if (true : Bool) = true then ['-'] else []) ++ natToDigits ip ++
        fracTail frac = '-' :: (natToDigits ip ++ fracTail frac) := by simp
    rw [hs, parseFloat]
    simp only [List.head?_cons, List.tail_cons, Option.some.injEq,
      eq_self_iff_true, true_or, if_true]
    rw [htake, hfrac, hipne]
    rw [Bool.false_and, if_neg (by simp : ¬(false = true))]
    rw [hmapback, hstrip]
    rw [parseNatDigits_natToDigits]
    simp

/-- `parseFloat` inverts `toString` on canonical decimal values. -/
theorem parseFloat_renderNum (q : JSNum) (h : q.wf = true) :
    parseFloat (renderNum q) = some q := by
  obtain ⟨neg, ip, frac⟩ := q
  rw [JSNum.wf] at h
  simp only [Bool.and_eq_true, Bool.or_eq_true, bne_iff_ne, ne_eq] at h
  have hdig : ∀ d ∈ frac, d < 10 := by
    intro d hd
    have := List.all_eq_true.mp h.1.1 d hd
    simpa using this
  have hlast : frac = [] ∨ frac.getLast? ≠ some 0 := by
    rcases h.1.2 with hh | hh
    · left
      exact List.isEmpty_iff.mp hh
    · right
      simpa using hh
  have hcore := parseFloat_core neg ip frac hdig hlast
  rw [renderNum]
  simp only [fracTail] at hcore
  simp only
  rw [show (if neg = true then ['-'] else []) ++ natToDigits ip ++
    (if frac.isEmpty = true then [] else '.' :: frac.map digitChar) =
    (if neg = true then ['-'] else []) ++ (natToDigits ip ++
    (if frac.isEmpty = true then [] else '.' :: frac.map digitChar)) from by
      rw [List.append_assoc]]
  rw [← List.append_assoc, hcore]
  have hz := h.2
  cases neg with
  | false => simp
  | true =>
    simp only [Bool.true_and, Option.some.injEq, JSNum.mk.injEq]
    have hip : (ip == 0 && frac.isEmpty) = false := by
      cases hq : (ip == 0) <;> cases hr : frac.isEmpty <;> simp_all
    refine ⟨?_, by simp, by simp⟩
    rw [hip]
    rfl

/-! ## Padding and integer-string lemmas -/

/-- `String.prototype.padStart`-style zero padding (used by the driver's
`formatNumber`). -/
def padStart (w : ℕ) (s : JStr) : JStr := List.replicate (w - s.length) '0' ++ s

/-- The driver's `formatNumber`: sign-aware zero-padded decimal
rendering. -/
def formatNumber (w : ℕ) (i : ℤ) : JStr :=
  if i < 0 then '-' :: padStart w (natToDigits i.natAbs)
  else padStart w (natToDigits i.natAbs)

/-- `padEnd(9, '0')` on a nanosecond digit string. -/
def padEnd9 (s : JStr) : JStr := s ++ List.replicate (9 - s.length) '0'

theorem padEnd9_of_long (s : JStr) (h : 9 ≤ s.length) : padEnd9 s = s := by
  rw [padEnd9, Nat.sub_eq_zero_of_le h]
  simp

theorem parseNatDigits_zeros (k : ℕ) (s : JStr) :
    parseNatDigits (List.replicate k '0' ++ s) = parseNatDigits s := by
  induction k with
  | zero => simp
  | succ k ih =>
    rw [List.replicate_succ, List.cons_append]
    show parseNatDigits ('0' :: (List.replicate k '0' ++ s)) = _
    rw [parseNatDigits, List.foldl_cons]
    simp only [show ('0' : Char).toNat - 48 = 0 from rfl, Nat.mul_zero, Nat.add_zero]
    exact ih

theorem padStart_digits (w : ℕ) (s : JStr) (hs : ∀ c ∈ s, isDigitCh c = true) :
    ∀ c ∈ padStart w s, isDigitCh c = true := by
  intro c hc
  rw [padStart, List.mem_append] at hc
  rcases hc with hc | hc
  · rw [List.eq_of_mem_replicate hc]
    decide
  · exact hs c hc

theorem parseNatDigits_padStart (w : ℕ) (n : ℕ) :
    parseNatDigits (padStart w (natToDigits n)) = n := by
  rw [padStart, parseNatDigits_zeros, parseNatDigits_natToDigits]

theorem padStart_length (w : ℕ) (s : JStr) : w ≤ (padStart w s).length := by
  rw [padStart, List.length_append, List.length_replicate]
  omega

/-- On digit strings (no sign), `parseJsInt` is plain digit
accumulation. -/
theorem parseJsInt_digits (s : JStr) (hs : ∀ c ∈ s, isDigitCh c = true) :
    parseJsInt s = (parseNatDigits s : ℤ) := by
  rw [parseJsInt]
  cases s with
  | nil => rfl
  | cons c rest =>
    have hc := hs c (by simp)
    have hm : ¬((c :: rest).head? = some '-') := by
      simp only [List.head?_cons, Option.some.injEq]
      intro hh
      rw [hh] at hc
      cases hc
    have hp : ¬((c :: rest).head? = some '+') := by
      simp only [List.head?_cons, Option.some.injEq]
      intro hh
      rw [hh] at hc
      cases hc
    rw [if_neg hm, if_neg hp]

theorem parseJsInt_formatNumber (w : ℕ) (i : ℤ) :
    parseJsInt (formatNumber w i) = i := by
  rw [formatNumber]
  by_cases hi : i < 0
  · rw [if_pos hi, parseJsInt]
    rw [List.head?_cons, if_pos rfl, List.tail_cons, parseNatDigits_padStart]
    omega
  · rw [if_neg hi]
    rw [parseJsInt_digits _ (padStart_digits w _ (natToDigits_digits _))]
    rw [parseNatDigits_padStart]
    omega

theorem parseJsInt_natToDigits (n : ℕ) : parseJsInt (natToDigits n) = n := by
  rw [parseJsInt_digits _ (natToDigits_digits n), parseNatDigits_natToDigits]

theorem parseJsInt_intToDigits (i : ℤ) : parseJsInt (intToDigits i) = i := by
  rw [intToDigits]
  by_cases hi : i < 0
  · rw [if_pos hi, parseJsInt]
    rw [List.head?_cons, if_pos rfl, List.tail_cons, parseNatDigits_natToDigits]
    omega
  · rw [if_neg hi, parseJsInt_natToDigits]
    omega

theorem formatNumber_digits (w : ℕ) (i : ℤ) (h : 0 ≤ i) :
    ∀ c ∈ formatNumber w i, isDigitCh c = true := by
  rw [formatNumber, if_neg (by omega : ¬i < 0)]
  exact padStart_digits w _ (natToDigits_digits _)

/-- A character set test used to reason about temporal separators: every
character of a nonneg `formatNumber` is a digit, hence none of the
separator characters. -/
theorem sep_not_mem_formatNumber (w : ℕ) (i : ℤ) (h : 0 ≤ i) (c : Char)
    (hc : isDigitCh c = false) : c ∉ formatNumber w i :=
  not_mem_of_digits _ (formatNumber_digits w i h) c hc

/-! ## Wire values and native values (`query.codec.ts`)

The tagged wire union `RawQueryValue`; node and relationship shapes are
inlined into their constructors. String payloads are `JStr`. -/

inductive RawValue where
  | null
  | boolean (b : Bool)
  | integer (s : JStr)
  | float (s : JStr)
  | string (s : JStr)
  | time (s : JStr)
  | date (s : JStr)
  | localTime (s : JStr)
  | zonedDateTime (s : JStr)
  | offsetDateTime (s : JStr)
  | localDateTime (s : JStr)
  | duration (s : JStr)
  | point (s : JStr)
  | base64 (s : JStr)
  | map (entries : List (JStr × RawValue))
  | list (xs : List RawValue)
  | node (elementId : JStr) (labels : List JStr) (properties : List (JStr × RawValue))
  | relationship (elementId startNodeElementId endNodeElementId typ : JStr)
      (properties : List (JStr × RawValue))
  | path (xs : List RawValue)

/-- The three integer representations selected by `useBigInt` /
`disableLosslessIntegers`. -/
inductive IntMode where
  | lossless
  | lossy
  | bigint
  deriving DecidableEq, Repr

/-- Native driver values, the domain/codomain of the codec. Numeric fields
of temporal and graph values are kept as `ℤ` — within one fixed `IntMode`
the `Integer`/`number`/`bigint` representations carry the same numeric
value, which is all the codec properties depend on. The `lossy` decode of
an `Integer` card is modelled exactly (`Integer.toNumber` precision loss
above 2^53 is outside the claims). `nan` models the `NaN` result of
`parseFloat` on non-numeric text; `brokenPoint` models the
`createBrokenObject` sentinel carrying a protocol error. -/
inductive Value where
  | null
  | bool (b : Bool)
  | integer (i : ℤ)
  | num (q : JSNum)
  | nan
  | str (s : JStr)
  | bytes (bs : List ℕ)
  | list (xs : List Value)
  | map (entries : List (JStr × Value))
  | date (year month day : ℤ)
  | time (hour minute second nanosecond offsetSeconds : ℤ)
  | localTime (hour minute second nanosecond : ℤ)
  | dateTime (year month day hour minute second nanosecond : ℤ)
      (offsetSeconds : Option ℤ) (zoneId : Option JStr)
  | localDateTime (year month day hour minute second nanosecond : ℤ)
  | duration (months days seconds nanoseconds : ℤ)
  | point (srid : ℤ) (x y z : Option JSNum)
  | brokenPoint (msg : String)
  | node (elementId : JStr) (labels : List JStr) (properties : List (JStr × Value))
  | relationship (elementId startNodeElementId endNodeElementId typ : JStr)
      (properties : List (JStr × Value))
  | path (pstart pend : Option Value) (segments : List (Value × Value × Value))

/-- Decode-side failures: `newError(..., PROTOCOL_ERROR)` throws, and
`typeError` models the `TypeError` raised by a property access on
`undefined` (a missing destructured split component); `invalidCharacter`
is `atob`'s `InvalidCharacterError`. -/
inductive DecodeErr where
  | protocolError (msg : String)
  | typeError
  | invalidCharacter
  | jsError (msg : String)
  deriving DecidableEq, Repr

/-- Encode-side failures: protocol errors (graph types) and plain
`Error`s (unsupported values, offset-less `DateTime`). -/
inductive EncodeErr where
  | protocolError (msg : String)
  | jsError (msg : String)
  deriving DecidableEq, Repr

/-! ## Decoders (`QuerySuccessResponseCodec`) -/

/-- The numeric value `_decodeInteger` produces; the representation
(`Integer` / `number` / `bigint`) is mode-dependent but carries this same
value. -/
def decodeIntegerZ (s : JStr) : ℤ := parseJsInt s

/-- An integral JS number. -/
def intToJSNum (i : ℤ) : JSNum := ⟨decide (i < 0), i.natAbs, []⟩

/-- `_decodeInteger` at the top level of a value: an `Integer` /
`bigint` under `lossless`/`bigint` modes, a plain number under
`disableLosslessIntegers`. -/
def decodeIntegerTop (mode : IntMode) (s : JStr) : Value :=
  match mode with
  | .bigint => .integer (parseJsInt s)
  | .lossless => .integer (parseJsInt s)
  | .lossy => .num (intToJSNum (parseJsInt s))

/-- `_decodeFloat`: `parseFloat(value)`. -/
def decodeFloat (s : JStr) : Value :=
  match parseFloat s with
  | some q => .num q
  | none => .nan

/-- The final step of `_decodeTime` when an offset designator was found:
`int(offsetMinuteString)` on a missing fourth `:`-component throws. -/
def decodeTimeFinish (hourStr minuteString secondStr : JStr)
    (offsetMinuteString? : Option JStr) (nanosecondString offsetHourString : JStr)
    (isPositive : Bool) : Except DecodeErr (ℤ × ℤ × ℤ × ℤ × Option ℤ) :=
  match offsetMinuteString? with
  | none => .error .typeError
  | some offsetMinuteString =>
    .ok (parseJsInt hourStr, parseJsInt minuteString, parseJsInt secondStr,
      parseJsInt (padEnd9 nanosecondString),
      some ((parseJsInt offsetHourString * 60 + parseJsInt offsetMinuteString) * 60 *
        (if isPositive then 1 else -1)))

/-- The offset-designator dispatch of `_decodeTime` on the text after the
dot: `+`/`-` split off a numeric offset, `Z` leaves the offset absent
(producing a `LocalTime`), and otherwise the last character is sliced off
with a `0` offset-hour. -/
def decodeTimeWithNano (hourStr minuteString secondStr : JStr)
    (offsetMinuteString? : Option JStr) (nanosecondAndOffsetString : JStr) :
    Except DecodeErr (ℤ × ℤ × ℤ × ℤ × Option ℤ) :=
  if '+' ∈ nanosecondAndOffsetString then
    match jsSplit '+' nanosecondAndOffsetString with
    | nanosecondString :: offsetHourString :: _ =>
      decodeTimeFinish hourStr minuteString secondStr offsetMinuteString?
        nanosecondString offsetHourString true
    | _ => .error .typeError
  else if '-' ∈ nanosecondAndOffsetString then
    match jsSplit '-' nanosecondAndOffsetString with
    | nanosecondString :: offsetHourString :: _ =>
      decodeTimeFinish hourStr minuteString secondStr offsetMinuteString?
        nanosecondString offsetHourString false
    | _ => .error .typeError
  else if 'Z' ∈ nanosecondAndOffsetString then
    .ok (parseJsInt hourStr, parseJsInt minuteString, parseJsInt secondStr,
      parseJsInt (padEnd9 nanosecondAndOffsetString.dropLast), none)
  else
    decodeTimeFinish hourStr minuteString secondStr offsetMinuteString?
      nanosecondAndOffsetString.dropLast ['0'] true

/-- The `.`-split step of `_decodeTime`: no dot means the nanosecond/offset
string is `undefined` and the subsequent `indexOf` call throws. -/
def decodeTimeWithSub (hourStr minuteString : JStr) (offsetMinuteString? : Option JStr) :
    List JStr → Except DecodeErr (ℤ × ℤ × ℤ × ℤ × Option ℤ)
  | secondStr :: nanosecondAndOffsetString :: _ =>
    decodeTimeWithNano hourStr minuteString secondStr offsetMinuteString?
      nanosecondAndOffsetString
  | _ => .error .typeError

/-- The `:`-split step of `_decodeTime`: fewer than three components mean
`undefined.split('.')` throws. -/
def decodeTimeFromParts : List JStr → Except DecodeErr (ℤ × ℤ × ℤ × ℤ × Option ℤ)
  | hourStr :: minuteString :: secondNanosecondAndOffsetString :: rest =>
    decodeTimeWithSub hourStr minuteString rest.head?
      (jsSplit '.' secondNanosecondAndOffsetString)
  | _ => .error .typeError

/-- `_decodeTime`, returning the parsed components and the optional
offset (`some` ⇒ a `Time` is built, `none` ⇒ a `LocalTime`). -/
def decodeTimeParts (value : JStr) : Except DecodeErr (ℤ × ℤ × ℤ × ℤ × Option ℤ) :=
  decodeTimeFromParts (jsSplit ':' value)

/-- `_decodeTime` as a `Value`. -/
def decodeTime (value : JStr) : Except DecodeErr Value :=
  (decodeTimeParts value).map fun (h, mi, s, ns, off?) =>
    match off? with
    | some off => .time h mi s ns off
    | none => .localTime h mi s ns

/-- `_decodeDate`, returning year/month/day. -/
def decodeDateParts (value : JStr) : Except DecodeErr (ℤ × ℤ × ℤ) :=
  match value with
  | [] => .error .typeError
  | first :: rest =>
    match jsSplit '-' rest with
    | yearStr :: monthStr :: dayStr :: _ =>
      .ok (parseJsInt (first :: yearStr), parseJsInt monthStr, parseJsInt dayStr)
    | _ => .error .typeError

/-- `_decodeDate` as a `Value`. -/
def decodeDate (value : JStr) : Except DecodeErr Value :=
  (decodeDateParts value).map fun (y, mo, d) => .date y mo d

/-- `_decodeLocalTime`, returning the components. -/
def decodeLocalTimeParts (value : JStr) : Except DecodeErr (ℤ × ℤ × ℤ × ℤ) :=
  match jsSplit ':' value with
  | hourStr :: minuteString :: secondNanosecondAndOffsetString :: _ =>
    match jsSplit '.' secondNanosecondAndOffsetString with
    | secondStr :: nanosecondString :: _ =>
      .ok (parseJsInt hourStr, parseJsInt minuteString, parseJsInt secondStr,
        parseJsInt (padEnd9 nanosecondString))
    | _ => .error .typeError
  | _ => .error .typeError

/-- `_decodeLocalTime` as a `Value`. -/
def decodeLocalTime (value : JStr) : Except DecodeErr Value :=
  (decodeLocalTimeParts value).map fun (h, mi, s, ns) => .localTime h mi s ns

/-- The body of `_decodeOffsetDateTime` after the `T` split: fewer than
two components mean `_decodeTime(undefined)` throws. -/
def decodeOffsetDateTimeFrom : List JStr → Except DecodeErr Value
  | dateStr :: timeStr :: _ => do
    let (y, mo, d) ← decodeDateParts dateStr
    let (h, mi, s, ns, off?) ← decodeTimeParts timeStr
    match off? with
    | some off => .ok (.dateTime y mo d h mi s ns (some off) none)
    | none => .ok (.localDateTime y mo d h mi s ns)
  | _ => .error .typeError

/-- `_decodeOffsetDateTime`: split on `T`, decode date then time; a time
with an offset yields a `DateTime`, otherwise a `LocalDateTime`. -/
def decodeOffsetDateTime (value : JStr) : Except DecodeErr Value :=
  decodeOffsetDateTimeFrom (jsSplit 'T' value)

/-- The body of `_decodeZonedDateTime` after the `[` split: a missing
bracket means `undefined.slice` throws. -/
def decodeZonedDateTimeFrom : List JStr → Except DecodeErr Value
  | dateTimeStr :: timeZoneIdEndWithAngleBrackets :: _ => do
    let timeZoneId := timeZoneIdEndWithAngleBrackets.dropLast
    let dt ← decodeOffsetDateTime dateTimeStr
    match dt with
    | .dateTime y mo d h mi s ns off _ =>
      .ok (.dateTime y mo d h mi s ns off (some timeZoneId))
    | .localDateTime y mo d h mi s ns =>
      .ok (.dateTime y mo d h mi s ns none (some timeZoneId))
    | _ => .error .typeError
  | _ => .error .typeError

/-- `_decodeZonedDateTime`: split on `[`, decode the date-time, re-attach
the zone id (keeping the offset only when the inner decode produced a
`DateTime`). -/
def decodeZonedDateTime (value : JStr) : Except DecodeErr Value :=
  decodeZonedDateTimeFrom (jsSplit '[' value)

/-- The body of `_decodeLocalDateTime` after the `T` split. -/
def decodeLocalDateTimeFrom : List JStr → Except DecodeErr Value
  | dateStr :: timeStr :: _ => do
    let (y, mo, d) ← decodeDateParts dateStr
    let (h, mi, s, ns) ← decodeLocalTimeParts timeStr
    .ok (.localDateTime y mo d h mi s ns)
  | _ => .error .typeError

/-- `_decodeLocalDateTime`: split on `T`, decode date and local time. -/
def decodeLocalDateTime (value : JStr) : Except DecodeErr Value :=
  decodeLocalDateTimeFrom (jsSplit 'T' value)

/-- The mutable state of `_decodeDuration`'s character loop. -/
structure DurState where
  month : JStr
  day : JStr
  second : JStr
  nano : Option JStr
  hour : JStr
  current : JStr
  timePart : Bool

/-- One non-accumulating step of `_decodeDuration`'s character loop: a
component letter commits the pending `current` digits (or rejects). -/
def durSwitch (ch : Char) (st : DurState) : Except DecodeErr DurState :=
  match ch with
  | 'M' =>
    if st.timePart then
      .error (.protocolError
        "Duration is not well formatted. Unexpected Duration component M in time part")
    else .ok { st with month := st.current, current := [] }
  | 'D' =>
    if st.timePart then
      .error (.protocolError
        "Duration is not well formatted. Unexpected Duration component D in time part")
    else .ok { st with day := st.current, current := [] }
  | 'S' =>
    if !st.timePart then
      .error (.protocolError
        "Duration is not well formatted. Unexpected Duration component S in date part")
    else
      let sep := if ',' ∈ st.current then ',' else '.'
      let pieces := jsSplit sep st.current
      .ok { st with second := pieces.headD [], nano := pieces[1]?, current := [] }
  | 'H' =>
    if !st.timePart then
      .error (.protocolError
        "Duration is not well formatted. Unexpected Duration component H in date part")
    else .ok { st with hour := st.current, current := [] }
  | 'T' => .ok { st with timePart := true, current := [] }
  | other =>
    .error (.protocolError
      ("Duration is not well formatted. Unexpected Duration component " ++
        String.mk [other]))

/-- The character loop of `_decodeDuration`: digits and fraction marks
accumulate, component letters commit via `durSwitch`. -/
def durLoop : JStr → DurState → Except DecodeErr DurState
  | [], st => .ok st
  | ch :: rest, st =>
    if isDigitCh ch || ch = '.' || ch = ',' then
      durLoop rest { st with current := st.current ++ [ch] }
    else
      (durSwitch ch st).bind (fun st2 => durLoop rest st2)

/-- The loop state `_decodeDuration` starts from (`'0'` strings for every
component). -/
def durInit : DurState :=
  { month := ['0'], day := ['0'], second := ['0'], nano := some ['0'],
    hour := ['0'], current := [], timePart := false }

/-- The final assembly of `_decodeDuration`: months/days, `hour*3600 +
second` seconds and right-padded nanoseconds. -/
def durAssemble (st : DurState) : Value :=
  .duration (parseJsInt st.month) (parseJsInt st.day)
    (parseJsInt st.hour * 3600 + parseJsInt st.second)
    (parseJsInt (padEnd9 (st.nano.getD ['0'])))

/-- `_decodeDuration` after the `P` is dropped: reject week durations,
run the character loop, then assemble. -/
def decodeDurationFrom (durationStringWithP : JStr) : Except DecodeErr Value :=
  if durationStringWithP.getLast? = some 'W' then
    .error (.protocolError "Duration in weeks is not supported yet")
  else (durLoop durationStringWithP durInit).map durAssemble

/-- `_decodeDuration`: `value.slice(1)` then the loop. -/
def decodeDuration (value : JStr) : Except DecodeErr Value :=
  decodeDurationFrom (value.drop 1)

/-- Coordinate extraction: `[x, y, z] = coords.map(parseFloat)` collapses
both a missing component (`undefined`) and an unparsable one (`NaN`) to
`none`. -/
def coordAt (coords : List JStr) (i : ℕ) : Option JSNum :=
  (coords.map parseFloat)[i]?.bind id

/-- `_decodePoint`'s structural checks: the `SRID=` and `POINT (`/
`POINT Z (` prefixes of the two `;`-separated chunks. -/
def decodePointChecks (c0 c1 : JStr) : Bool :=
  (String.toList "SRID=").isPrefixOf c0 &&
  ((String.toList "POINT (").isPrefixOf c1 || (String.toList "POINT Z (").isPrefixOf c1)

/-- `int(...)` = `Integer.fromString` on the srid chunk. Modelled from
the spec: `Integer.fromString` lives in `neo4j-driver-core`, outside this
repository; it throws `number format error: empty string` on the empty
string and is decimal parsing on the signed digit strings the shapes
below produce. -/
def intFromString (s : JStr) : Except DecodeErr ℤ :=
  if s.isEmpty then .error (.jsError "number format error: empty string")
  else .ok (parseJsInt s)

/-- The success path of `_decodePoint`: srid after the `=` (a throwing
`int(...)` parse), coordinates between the `(` and the final `)` split
on blanks. -/
def decodePointCoords (c0 c1 : JStr) : Except DecodeErr Value := do
  let srid ← intFromString (((jsSplit '=' c0)[1]?).getD [])
  .ok (.point srid
    (coordAt (jsSplit ' ' ((((jsSplit '(' c1)[1]?).getD []).dropLast)) 0)
    (coordAt (jsSplit ' ' ((((jsSplit '(' c1)[1]?).getD []).dropLast)) 1)
    (coordAt (jsSplit ' ' ((((jsSplit '(' c1)[1]?).getD []).dropLast)) 2))

/-- `_decodePoint` after the `;` split: anything but two chunks passing
the structural checks is a broken-object result (no throw on that path);
a passing input reaches the srid parse, which can throw. -/
def decodePointFrom (value : JStr) : List JStr → Except DecodeErr Value
  | [c0, c1] =>
    if decodePointChecks c0 c1 then decodePointCoords c0 c1
    else .ok (.brokenPoint ("Wrong point format. RawValue: " ++ String.mk value))
  | _ => .ok (.brokenPoint ("Wrong point format. RawValue: " ++ String.mk value))

/-- `_decodePoint`: split on `;`, check, parse. -/
def decodePoint (value : JStr) : Except DecodeErr Value :=
  decodePointFrom value (jsSplit ';' value)

/-- `_decodeBase64`: `atob` then bytes. -/
def decodeBase64 (value : JStr) : Except DecodeErr Value :=
  match b64decode value with
  | some bs => .ok (.bytes bs)
  | none => .error .invalidCharacter

/-- Accumulator of `_decodePath`'s reduce: the pending 0/1/2-element
segment prefix and completed segments. -/
structure PathAcc where
  acc : List Value
  segments : List (Value × Value × Value)

/-- One reduce step: close a `(node, rel, node)` segment whenever two
elements are pending, restarting from the closing node. -/
def pathStep (previous : PathAcc) (current : Value) : PathAcc :=
  if previous.acc.length = 2 then
    { acc := [current],
      segments := previous.segments ++
        [(previous.acc.headD .null, (previous.acc[1]?).getD .null, current)] }
  else { previous with acc := previous.acc ++ [current] }

/-- The segments `_decodePath` builds from the decoded flat sequence. -/
def pathSegments (decoded : List Value) : List (Value × Value × Value) :=
  (decoded.foldl pathStep { acc := [], segments := [] }).segments

mutual

/-- `_decodeValue`: dispatch on the wire tag. -/
def decodeValue (mode : IntMode) : RawValue → Except DecodeErr Value
  | .null => .ok .null
  | .boolean b => .ok (.bool b)
  | .integer s => .ok (decodeIntegerTop mode s)
  | .float s => .ok (decodeFloat s)
  | .string s => .ok (.str s)
  | .time s => decodeTime s
  | .date s => decodeDate s
  | .localTime s => decodeLocalTime s
  | .zonedDateTime s => decodeZonedDateTime s
  | .offsetDateTime s => decodeOffsetDateTime s
  | .localDateTime s => decodeLocalDateTime s
  | .duration s => decodeDuration s
  | .point s => decodePoint s
  | .base64 s => decodeBase64 s
  | .map entries => (decodeMapEntries mode entries).map .map
  | .list xs => (decodeList mode xs).map .list
  | .node elementId labels properties =>
    (decodeMapEntries mode properties).map fun ps => .node elementId labels ps
  | .relationship elementId startId endId typ properties =>
    (decodeMapEntries mode properties).map fun ps =>
      .relationship elementId startId endId typ ps
  | .path xs => do
    let decoded ← decodeList mode xs
    .ok (.path decoded.head? decoded.getLast? (pathSegments decoded))

/-- `value.map(this._decodeValue)` over a list. -/
def decodeList (mode : IntMode) : List RawValue → Except DecodeErr (List Value)
  | [] => .ok []
  | x :: xs => do
    let v ← decodeValue mode x
    let vs ← decodeList mode xs
    .ok (v :: vs)

/-- `_decodeMap`: decode each property value in order. -/
def decodeMapEntries (mode : IntMode) :
    List (JStr × RawValue) → Except DecodeErr (List (JStr × Value))
  | [] => .ok []
  | (k, x) :: xs => do
    let v ← decodeValue mode x
    let vs ← decodeMapEntries mode xs
    .ok ((k, v) :: vs)

end

/-! ## Canonical temporal rendering

Modelled from the spec: the encoder calls `toString` on
`neo4j-driver-core` temporal/spatial objects, whose sources are outside
this repository. The renderings below follow spec §4.1 ("temporal and
spatial objects render to their canonical textual form") pinned by the
repository's own unit tests: nanoseconds print as a 9-digit fraction and
are omitted when zero, a zero UTC offset prints as `Z`, dates print as
`±YYYY-MM-DD`, durations as `P<m>M<d>DT<s>[.<9 digits>]S` (the
negative-seconds borrow of the driver is irrelevant here: encoding claims
are only made for the well-formed ranges below). -/

/-- `formatNanosecond`: empty when zero, else a dot and 9 digits. -/
def formatNanosecond (ns : ℤ) : JStr :=
  if ns = 0 then [] else '.' :: formatNumber 9 ns

/-- `timeZoneOffsetToIsoString`: `Z` for zero, else `±HH:MM[:SS]`. -/
def renderOffset (off : ℤ) : JStr :=
  if off = 0 then ['Z']
  else
    (if off < 0 then ['-'] else ['+']) ++
      padStart 2 (natToDigits (off.natAbs / 3600)) ++
      ':' :: padStart 2 (natToDigits (off.natAbs % 3600 / 60)) ++
      (if off.natAbs % 60 = 0 then [] else ':' :: padStart 2 (natToDigits (off.natAbs % 60)))

/-- `timeToString` without offset. -/
def renderLocalTime (h mi s ns : ℤ) : JStr :=
  formatNumber 2 h ++ ':' :: formatNumber 2 mi ++ ':' :: formatNumber 2 s ++
    formatNanosecond ns

/-- `Time.toString`: local part plus offset. -/
def renderTime (h mi s ns off : ℤ) : JStr :=
  renderLocalTime h mi s ns ++ renderOffset off

/-- Year formatting: 4-digit for `0 ≤ y < 10000`, else signed. -/
def formatYear (y : ℤ) : JStr :=
  if 0 ≤ y ∧ y < 10000 then padStart 4 (natToDigits y.toNat)
  else (if y < 0 then ['-'] else ['+']) ++ padStart 4 (natToDigits y.natAbs)

/-- `Date.toString`. -/
def renderDate (y mo d : ℤ) : JStr :=
  formatYear y ++ '-' :: formatNumber 2 mo ++ '-' :: formatNumber 2 d

/-- `Duration.toString` (for the non-negative components encoding claims
are made about). -/
def renderDuration (months days seconds ns : ℤ) : JStr :=
  'P' :: intToDigits months ++ 'M' :: intToDigits days ++ 'D' :: 'T' ::
    intToDigits seconds ++ formatNanosecond ns ++ ['S']

/-- A point coordinate in a JS template literal: `undefined`/`NaN` slots
are collapsed (they never occur in well-formed points). -/
def coordRender (c : Option JSNum) : JStr :=
  match c with
  | some q => renderNum q
  | none => String.toList "undefined"

/-- The `SRID=<srid>;POINT (x y)` / `SRID=<srid>;POINT Z (x y z)`
template of `_encodeValue`. -/
def renderPoint (srid : ℤ) (x y : Option JSNum) (z : Option JSNum) : JStr :=
  String.toList "SRID=" ++ intToDigits srid ++
    (match z with
     | none => String.toList ";POINT (" ++ coordRender x ++ ' ' :: coordRender y ++ [')']
     | some qz => String.toList ";POINT Z (" ++ coordRender x ++ ' ' :: coordRender y ++
        ' ' :: renderNum qz ++ [')'])

mutual

/-- `QueryRequestCodec._encodeValue`: dispatch on the native value kind,
in the source's order of `typeof`/instance tests. Graph types are
rejected with a protocol error; a `DateTime` without offset is rejected
with the ambiguous-time error. -/
def encodeValue : Value → Except EncodeErr RawValue
  | .null => .ok .null
  | .bool b => .ok (.boolean b)
  | .num q => .ok (.float (renderNum q))
  | .nan => .ok (.float (String.toList "NaN"))
  | .str s => .ok (.string s)
  | .integer i => .ok (.integer (intToDigits i))
  | .bytes bs => .ok (.base64 (b64encode bs))
  | .list xs => (encodeList xs).map .list
  | .point srid x y z => .ok (.point (renderPoint srid x y z))
  | .duration months days seconds ns =>
    .ok (.duration (renderDuration months days seconds ns))
  | .localTime h mi s ns => .ok (.localTime (renderLocalTime h mi s ns))
  | .time h mi s ns off => .ok (.time (renderTime h mi s ns off))
  | .date y mo d => .ok (.date (renderDate y mo d))
  | .localDateTime y mo d h mi s ns =>
    .ok (.localDateTime (renderDate y mo d ++ 'T' :: renderLocalTime h mi s ns))
  | .dateTime y mo d h mi s ns off zone =>
    match off with
    | none =>
      .error (.jsError ("DateTime objects without \"timeZoneOffsetSeconds\" property " ++
        "are prone to bugs related to ambiguous times. For instance, " ++
        "2022-10-30T2:30:00[Europe/Berlin] could be GMT+1 or GMT+2."))
    | some o =>
      match zone with
      | some z =>
        .ok (.zonedDateTime (renderDate y mo d ++ 'T' :: renderTime h mi s ns o ++
          '[' :: z ++ [']']))
      | none =>
        .ok (.offsetDateTime (renderDate y mo d ++ 'T' :: renderTime h mi s ns o))
  | .node .. => .error (.protocolError "Graph types can not be ingested to the server")
  | .relationship .. => .error (.protocolError "Graph types can not be ingested to the server")
  | .path .. => .error (.protocolError "Graph types can not be ingested to the server")
  | .brokenPoint _ => .error (.jsError "broken object")
  | .map entries => (encodeMapEntries entries).map .map

/-- `value.map(this._encodeValue.bind(this))`. -/
def encodeList : List Value → Except EncodeErr (List RawValue)
  | [] => .ok []
  | x :: xs => do
    let v ← encodeValue x
    let vs ← encodeList xs
    .ok (v :: vs)

/-- `_encodeParameters` over map entries in key order. -/
def encodeMapEntries : List (JStr × Value) → Except EncodeErr (List (JStr × RawValue))
  | [] => .ok []
  | (k, x) :: xs => do
    let v ← encodeValue x
    let vs ← encodeMapEntries xs
    .ok ((k, v) :: vs)

end

/-- C2: the code's `_decodeDuration` rejects its own documented example
input `P14DT16H12M` (the comment atop `_decodeDuration` and the unit
tests both expect minutes in the time part to decode, summing into
seconds), throwing the unexpected-component protocol error instead of
returning a duration of 0 months, 14 days, 58320 seconds. -/
theorem decodeDuration_P14DT16H12M :
    decodeDuration (String.toList "P14DT16H12M") =
      .error (.protocolError
        "Duration is not well formatted. Unexpected Duration component M in time part") := by
  rfl

/-- Well-formed time-of-day components: non-negative, with a non-zero
nanosecond field below one second (a zero nanosecond renders without a
fraction, which `_decodeTime`/`_decodeLocalTime` cannot parse). -/
def tcompsWf (h mi s ns : ℤ) : Bool :=
  decide (0 ≤ h) && decide (0 ≤ mi) && decide (0 ≤ s) &&
    decide (0 < ns) && decide (ns < 1000000000)

/-- Well-formed offset: non-zero (zero renders as `Z`, which decodes to a
local value) and whole minutes (the decoder drops offset seconds). -/
def offWf (off : ℤ) : Bool := decide (off ≠ 0) && decide (off % 60 = 0)

mutual

/-- The native values for which the encode/decode round trip is claimed:
the encodable kinds of spec §8 under the active integer mode, with
canonical numbers and temporal components inside the grammar the decoder
accepts. Graph values, broken points and `NaN` are excluded (the encoder
rejects or the claim does not cover them). -/
def Value.Wf (mode : IntMode) : Value → Bool
  | .null => true
  | .bool _ => true
  | .integer _ => decide (mode ≠ IntMode.lossy)
  | .num q => q.wf
  | .nan => false
  | .str _ => true
  | .bytes bs => bs.all (fun b => decide (b < 256))
  | .list xs => Value.WfList mode xs
  | .map entries => Value.WfMap mode entries
  | .date _ mo d => decide (0 ≤ mo) && decide (0 ≤ d)
  | .time h mi s ns off => tcompsWf h mi s ns && offWf off
  | .localTime h mi s ns => tcompsWf h mi s ns
  | .dateTime _ mo d h mi s ns off zone =>
    decide (0 ≤ mo) && decide (0 ≤ d) && tcompsWf h mi s ns &&
      (match off with | some o => offWf o | none => false) &&
      (match zone with | some z => decide ('[' ∉ z) | none => true)
  | .localDateTime _ mo d h mi s ns =>
    decide (0 ≤ mo) && decide (0 ≤ d) && tcompsWf h mi s ns
  | .duration months days seconds ns =>
    decide (0 ≤ months) && decide (0 ≤ days) && decide (0 ≤ seconds) &&
      decide (0 ≤ ns) && decide (ns < 1000000000)
  | .point _ x y z =>
    (match x with | some q => q.wf | none => false) &&
    (match y with | some q => q.wf | none => false) &&
    (match z with | some q => q.wf | none => true)
  | .brokenPoint _ => false
  | .node .. => false
  | .relationship .. => false
  | .path .. => false

def Value.WfList (mode : IntMode) : List Value → Bool
  | [] => true
  | x :: xs => Value.Wf mode x && Value.WfList mode xs

def Value.WfMap (mode : IntMode) : List (JStr × Value) → Bool
  | [] => true
  | (_, x) :: xs => Value.Wf mode x && Value.WfMap mode xs

end

/-! ## Round-trip lemmas for the temporal grammars -/

theorem jsSplit_three (sep : Char) (a b c : JStr) (ha : sep ∉ a) (hb : sep ∉ b)
    (hc : sep ∉ c) : jsSplit sep (a ++ sep :: (b ++ sep :: c)) = [a, b, c] := by
  rw [jsSplit_append sep a _ ha, jsSplit_append sep b _ hb, jsSplit_no_sep sep c hc]

theorem not_mem_formatNumber_of_nonneg (w : ℕ) (i : ℤ) (h : 0 ≤ i) (c : Char)
    (hc : isDigitCh c = false) : c ∉ formatNumber w i :=
  sep_not_mem_formatNumber w i h c hc

/-- Parsing a rendered date recovers year, month and day. -/
theorem decodeDateParts_renderDate (y mo d : ℤ) (hmo : 0 ≤ mo) (hd : 0 ≤ d) :
    decodeDateParts (renderDate y mo d) = .ok (y, mo, d) := by
  have hmo' : '-' ∉ formatNumber 2 mo :=
    not_mem_formatNumber_of_nonneg 2 mo hmo '-' (by decide)
  have hd' : '-' ∉ formatNumber 2 d :=
    not_mem_formatNumber_of_nonneg 2 d hd '-' (by decide)
  have main : ∀ (first : Char) (tail : JStr), '-' ∉ tail →
      decodeDateParts (first :: (tail ++ '-' :: (formatNumber 2 mo ++ '-' :: formatNumber 2 d))) =
        .ok (parseJsInt (first :: tail), mo, d) := by
    intro first tail htail
    rw [decodeDateParts]
    rw [jsSplit_three '-' tail _ _ htail hmo' hd']
    show Except.ok (parseJsInt (first :: tail), parseJsInt (formatNumber 2 mo),
      parseJsInt (formatNumber 2 d)) = _
    rw [parseJsInt_formatNumber, parseJsInt_formatNumber]
  have hpadnm : '-' ∉ padStart 4 (natToDigits y.natAbs) := fun hmem => by
    have := padStart_digits 4 (natToDigits y.natAbs) (natToDigits_digits _) '-' hmem
    cases this
  rw [renderDate, formatYear]
  by_cases hy : 0 ≤ y ∧ y < 10000
  · rw [if_pos hy]
    obtain ⟨c, cs, hcs⟩ : ∃ c cs, padStart 4 (natToDigits y.toNat) = c :: cs := by
      cases hp : padStart 4 (natToDigits y.toNat) with
      | nil =>
        have := padStart_length 4 (natToDigits y.toNat)
        rw [hp] at this
        simp at this
      | cons x xs => exact ⟨x, xs, rfl⟩
    have hdig : ∀ ch ∈ c :: cs, isDigitCh ch = true := by
      rw [← hcs]
      exact padStart_digits 4 _ (natToDigits_digits _)
    have htail : '-' ∉ cs := fun hmem => by
      have := hdig '-' (by simp [hmem])
      cases this
    have hv : parseJsInt (c :: cs) = y := by
      rw [parseJsInt_digits _ hdig, ← hcs, parseNatDigits_padStart]
      omega
    rw [hcs]
    simp only [List.cons_append, List.append_assoc]
    rw [main c cs htail, hv]
  · rw [if_neg hy]
    by_cases hneg : y < 0
    · rw [if_pos hneg]
      simp only [List.singleton_append, List.cons_append, List.append_assoc, List.nil_append]
      rw [main '-' _ hpadnm]
      have hv : parseJsInt ('-' :: padStart 4 (natToDigits y.natAbs)) = y := by
        rw [parseJsInt, List.head?_cons, if_pos rfl, List.tail_cons, parseNatDigits_padStart]
        omega
      rw [hv]
    · rw [if_neg hneg]
      simp only [List.singleton_append, List.cons_append, List.append_assoc, List.nil_append]
      rw [main '+' _ hpadnm]
      have hv : parseJsInt ('+' :: padStart 4 (natToDigits y.natAbs)) = y := by
        rw [parseJsInt, List.head?_cons, if_neg (by decide), if_pos rfl, List.tail_cons,
          parseNatDigits_padStart]
        omega
      rw [hv]

theorem jsSplit_four (sep : Char) (a b c d : JStr) (ha : sep ∉ a) (hb : sep ∉ b)
    (hc : sep ∉ c) (hd : sep ∉ d) :
    jsSplit sep (a ++ sep :: (b ++ sep :: (c ++ sep :: d))) = [a, b, c, d] := by
  rw [jsSplit_append sep a _ ha, jsSplit_append sep b _ hb, jsSplit_append sep c _ hc,
    jsSplit_no_sep sep d hd]

theorem formatNumber_nine_length (ns : ℤ) (h : 0 ≤ ns) :
    9 ≤ (formatNumber 9 ns).length := by
  rw [formatNumber, if_neg (by omega : ¬ns < 0)]
  exact padStart_length 9 _

/-- Parsing a rendered local time (with its mandatory fraction) recovers
the components. -/
theorem decodeLocalTimeParts_render (h mi s ns : ℤ) (hh : 0 ≤ h) (hmi : 0 ≤ mi)
    (hs : 0 ≤ s) (hns : 0 < ns) :
    decodeLocalTimeParts (renderLocalTime h mi s ns) = .ok (h, mi, s, ns) := by
  have hnsc : ∀ c, isDigitCh c = false → c ∉ formatNumber 9 ns :=
    fun c hc => not_mem_formatNumber_of_nonneg 9 ns (by omega) c hc
  have hch : ∀ c, isDigitCh c = false → c ∉ formatNumber 2 h :=
    fun c hc => not_mem_formatNumber_of_nonneg 2 h hh c hc
  have hcmi : ∀ c, isDigitCh c = false → c ∉ formatNumber 2 mi :=
    fun c hc => not_mem_formatNumber_of_nonneg 2 mi hmi c hc
  have hcs : ∀ c, isDigitCh c = false → c ∉ formatNumber 2 s :=
    fun c hc => not_mem_formatNumber_of_nonneg 2 s hs c hc
  rw [renderLocalTime, formatNanosecond, if_neg (by omega : ¬ns = 0)]
  simp only [List.cons_append, List.append_assoc]
  rw [decodeLocalTimeParts]
  rw [jsSplit_three ':' _ _ _ (hch ':' (by decide)) (hcmi ':' (by decide))
    (by
      intro hmem
      rw [List.mem_append, List.mem_cons] at hmem
      rcases hmem with hmem | hmem | hmem
      · exact hcs ':' (by decide) hmem
      · cases hmem
      · exact hnsc ':' (by decide) hmem)]
  show (match jsSplit '.' (formatNumber 2 s ++ '.' :: formatNumber 9 ns) with
    | secondStr :: nanosecondString :: _ =>
      Except.ok (parseJsInt (formatNumber 2 h), parseJsInt (formatNumber 2 mi),
        parseJsInt secondStr, parseJsInt (padEnd9 nanosecondString))
    | _ => Except.error DecodeErr.typeError) = _
  rw [jsSplit_append '.' _ _ (hcs '.' (by decide)),
    jsSplit_no_sep '.' _ (hnsc '.' (by decide))]
  show Except.ok (parseJsInt (formatNumber 2 h), parseJsInt (formatNumber 2 mi),
    parseJsInt (formatNumber 2 s), parseJsInt (padEnd9 (formatNumber 9 ns))) = _
  rw [padEnd9_of_long _ (formatNumber_nine_length ns (by omega))]
  rw [parseJsInt_formatNumber, parseJsInt_formatNumber, parseJsInt_formatNumber,
    parseJsInt_formatNumber]

/-- Parsing a rendered `Time` (nonzero fraction, nonzero whole-minute
offset) recovers the components and the offset. -/
theorem decodeTimeParts_render (h mi s ns off : ℤ) (hh : 0 ≤ h) (hmi : 0 ≤ mi)
    (hs : 0 ≤ s) (hns : 0 < ns) (hoff : off ≠ 0) (hoff60 : off % 60 = 0) :
    decodeTimeParts (renderTime h mi s ns off) = .ok (h, mi, s, ns, some off) := by
  have hnd : ∀ (w : ℕ) (i : ℤ), 0 ≤ i → ∀ c, isDigitCh c = false → c ∉ formatNumber w i :=
    fun w i hi c hc => not_mem_formatNumber_of_nonneg w i hi c hc
  have hpd : ∀ (w n : ℕ) (c : Char), isDigitCh c = false → c ∉ padStart w (natToDigits n) :=
    fun w n c hc => not_mem_of_digits _ (padStart_digits w _ (natToDigits_digits n)) c hc
  have ha60 : off.natAbs % 60 = 0 := by omega
  have hchunk3 : ∀ (sgn : Char), sgn = '+' ∨ sgn = '-' → ':' ∉
      formatNumber 2 s ++ '.' :: (formatNumber 9 ns ++ sgn ::
        padStart 2 (natToDigits (off.natAbs / 3600))) := by
    intro sgn hsgn hmem
    simp only [List.mem_append, List.mem_cons] at hmem
    rcases hmem with hm | hm | hm | hm | hm
    · exact hnd 2 s hs ':' (by decide) hm
    · cases hm
    · exact hnd 9 ns (by omega) ':' (by decide) hm
    · rcases hsgn with rfl | rfl <;> cases hm
    · exact hpd 2 _ ':' (by decide) hm
  have hsubsplit : ∀ (sgn : Char), sgn ≠ '.' →
      jsSplit '.' (formatNumber 2 s ++ '.' :: (formatNumber 9 ns ++ sgn ::
        padStart 2 (natToDigits (off.natAbs / 3600)))) =
      [formatNumber 2 s, formatNumber 9 ns ++ sgn ::
        padStart 2 (natToDigits (off.natAbs / 3600))] := by
    intro sgn hsgn
    rw [jsSplit_append '.' _ _ (hnd 2 s hs '.' (by decide))]
    rw [jsSplit_no_sep '.' _ (by
      intro hmem
      simp only [List.mem_append, List.mem_cons] at hmem
      rcases hmem with hm | hm | hm
      · exact hnd 9 ns (by omega) '.' (by decide) hm
      · exact hsgn hm.symm
      · exact hpd 2 _ '.' (by decide) hm)]
  have hfinish : ∀ (sgn : Char) (hsgn : sgn = '+' ∨ sgn = '-') (isPos : Bool),
      decodeTimeFinish (formatNumber 2 h) (formatNumber 2 mi) (formatNumber 2 s)
        (some (padStart 2 (natToDigits (off.natAbs % 3600 / 60))))
        (formatNumber 9 ns) (padStart 2 (natToDigits (off.natAbs / 3600))) isPos =
      .ok (h, mi, s, ns, some ((((off.natAbs / 3600 : ℕ) : ℤ) * 60 +
        ((off.natAbs % 3600 / 60 : ℕ) : ℤ)) * 60 * (if isPos then 1 else -1))) := by
    intro sgn hsgn isPos
    rw [decodeTimeFinish]
    rw [padEnd9_of_long _ (formatNumber_nine_length ns (by omega))]
    rw [parseJsInt_formatNumber, parseJsInt_formatNumber, parseJsInt_formatNumber,
      parseJsInt_formatNumber]
    rw [parseJsInt_digits _ (padStart_digits 2 _ (natToDigits_digits _)),
      parseNatDigits_padStart]
    rw [parseJsInt_digits _ (padStart_digits 2 _ (natToDigits_digits _)),
      parseNatDigits_padStart]
  by_cases hpos : 0 < off
  case pos =>
    have hstr : renderTime h mi s ns off =
        formatNumber 2 h ++ ':' :: (formatNumber 2 mi ++ ':' ::
          ((formatNumber 2 s ++ '.' :: (formatNumber 9 ns ++ '+' ::
            padStart 2 (natToDigits (off.natAbs / 3600)))) ++ ':' ::
            padStart 2 (natToDigits (off.natAbs % 3600 / 60)))) := by
      rw [renderTime, renderLocalTime, renderOffset, formatNanosecond]
      rw [if_neg (show ¬ns = 0 by omega), if_neg hoff, if_neg (show ¬off < 0 by omega),
        if_pos ha60]
      simp
    rw [hstr, decodeTimeParts]
    rw [jsSplit_four ':' _ _ _ _ (hnd 2 h hh ':' (by decide)) (hnd 2 mi hmi ':' (by decide))
      (hchunk3 '+' (Or.inl rfl)) (hpd 2 _ ':' (by decide))]
    rw [decodeTimeFromParts, List.head?_cons, hsubsplit '+' (by decide), decodeTimeWithSub,
      decodeTimeWithNano]
    rw [if_pos (by simp : '+' ∈ formatNumber 9 ns ++ '+' ::
      padStart 2 (natToDigits (off.natAbs / 3600)))]
    rw [jsSplit_append '+' _ _ (hnd 9 ns (by omega) '+' (by decide)),
      jsSplit_no_sep '+' _ (hpd 2 _ '+' (by decide))]
    show decodeTimeFinish (formatNumber 2 h) (formatNumber 2 mi) (formatNumber 2 s)
      (some (padStart 2 (natToDigits (off.natAbs % 3600 / 60))))
      (formatNumber 9 ns) (padStart 2 (natToDigits (off.natAbs / 3600))) true = _
    rw [hfinish '+' (Or.inl rfl) true]
    have harith : (((off.natAbs / 3600 : ℕ) : ℤ) * 60 +
        ((off.natAbs % 3600 / 60 : ℕ) : ℤ)) * 60 * (if (true : Bool) = true then 1 else -1) =
        off := by
      rw [if_pos rfl]
      have h1 : off.natAbs / 3600 * 3600 + off.natAbs % 3600 / 60 * 60 = off.natAbs := by
        omega
      omega
    rw [harith]
  case neg =>
    have hneg : off < 0 := by omega
    have hstr : renderTime h mi s ns off =
        formatNumber 2 h ++ ':' :: (formatNumber 2 mi ++ ':' ::
          ((formatNumber 2 s ++ '.' :: (formatNumber 9 ns ++ '-' ::
            padStart 2 (natToDigits (off.natAbs / 3600)))) ++ ':' ::
            padStart 2 (natToDigits (off.natAbs % 3600 / 60)))) := by
      rw [renderTime, renderLocalTime, renderOffset, formatNanosecond]
      rw [if_neg (show ¬ns = 0 by omega), if_neg hoff, if_pos hneg, if_pos ha60]
      simp
    rw [hstr, decodeTimeParts]
    rw [jsSplit_four ':' _ _ _ _ (hnd 2 h hh ':' (by decide)) (hnd 2 mi hmi ':' (by decide))
      (hchunk3 '-' (Or.inr rfl)) (hpd 2 _ ':' (by decide))]
    rw [decodeTimeFromParts, List.head?_cons, hsubsplit '-' (by decide), decodeTimeWithSub,
      decodeTimeWithNano]
    rw [if_neg (by
      intro hmem
      simp only [List.mem_append, List.mem_cons] at hmem
      rcases hmem with hm | hm | hm
      · exact hnd 9 ns (by omega) '+' (by decide) hm
      · cases hm
      · exact hpd 2 _ '+' (by decide) hm)]
    rw [if_pos (by simp : '-' ∈ formatNumber 9 ns ++ '-' ::
      padStart 2 (natToDigits (off.natAbs / 3600)))]
    rw [jsSplit_append '-' _ _ (hnd 9 ns (by omega) '-' (by decide)),
      jsSplit_no_sep '-' _ (hpd 2 _ '-' (by decide))]
    show decodeTimeFinish (formatNumber 2 h) (formatNumber 2 mi) (formatNumber 2 s)
      (some (padStart 2 (natToDigits (off.natAbs % 3600 / 60))))
      (formatNumber 9 ns) (padStart 2 (natToDigits (off.natAbs / 3600))) false = _
    rw [hfinish '-' (Or.inr rfl) false]
    have harith : (((off.natAbs / 3600 : ℕ) : ℤ) * 60 +
        ((off.natAbs % 3600 / 60 : ℕ) : ℤ)) * 60 * (if (false : Bool) = true then 1 else -1) =
        off := by
      rw [if_neg (by simp)]
      have h1 : off.natAbs / 3600 * 3600 + off.natAbs % 3600 / 60 * 60 = off.natAbs := by
        omega
      omega
    rw [harith]

/-- The characters a rendered date-time can contain: digits, signs,
colon and dot. -/
def dtCh (c : Char) : Bool :=
  isDigitCh c || c == '-' || c == '+' || c == ':' || c == '.'

theorem dtCh_padStart (w n : ℕ) : ∀ c ∈ padStart w (natToDigits n), dtCh c = true := by
  intro c hc
  have hd := padStart_digits w _ (natToDigits_digits n) c hc
  simp [dtCh, hd]

theorem dtCh_formatNumber (w : ℕ) (i : ℤ) : ∀ c ∈ formatNumber w i, dtCh c = true := by
  intro c hc
  rw [formatNumber] at hc
  by_cases hi : i < 0
  · rw [if_pos hi] at hc
    rw [List.mem_cons] at hc
    rcases hc with rfl | hc
    · decide
    · exact dtCh_padStart w _ c hc
  · rw [if_neg hi] at hc
    exact dtCh_padStart w _ c hc

theorem dtCh_formatYear (y : ℤ) : ∀ c ∈ formatYear y, dtCh c = true := by
  intro c hc
  rw [formatYear] at hc
  by_cases h1 : 0 ≤ y ∧ y < 10000
  · rw [if_pos h1] at hc
    exact dtCh_padStart 4 _ c hc
  · rw [if_neg h1] at hc
    by_cases h2 : y < 0
    · rw [if_pos h2] at hc
      rw [List.mem_append, List.mem_singleton] at hc
      rcases hc with rfl | hc
      · decide
      · exact dtCh_padStart 4 _ c hc
    · rw [if_neg h2] at hc
      rw [List.mem_append, List.mem_singleton] at hc
      rcases hc with rfl | hc
      · decide
      · exact dtCh_padStart 4 _ c hc

theorem dtCh_renderDate (y mo d : ℤ) : ∀ c ∈ renderDate y mo d, dtCh c = true := by
  intro c hc
  rw [renderDate] at hc
  simp only [List.mem_append, List.mem_cons] at hc
  casesm* _ ∨ _
  all_goals rename_i hc
  all_goals first
    | exact dtCh_formatYear y c hc
    | exact dtCh_formatNumber 2 mo c hc
    | exact dtCh_formatNumber 2 d c hc
    | (subst hc; decide)

theorem dtCh_renderLocalTime (h mi s ns : ℤ) :
    ∀ c ∈ renderLocalTime h mi s ns, dtCh c = true := by
  intro c hc
  rw [renderLocalTime, formatNanosecond] at hc
  by_cases hns : ns = 0
  · rw [if_pos hns] at hc
    simp only [List.append_nil, List.mem_append, List.mem_cons] at hc
    casesm* _ ∨ _
    all_goals rename_i hc
    all_goals first
      | exact dtCh_formatNumber 2 h c hc
      | exact dtCh_formatNumber 2 mi c hc
      | exact dtCh_formatNumber 2 s c hc
      | (subst hc; decide)
  · rw [if_neg hns] at hc
    simp only [List.mem_append, List.mem_cons] at hc
    casesm* _ ∨ _
    all_goals rename_i hc
    all_goals first
      | exact dtCh_formatNumber 2 h c hc
      | exact dtCh_formatNumber 2 mi c hc
      | exact dtCh_formatNumber 2 s c hc
      | exact dtCh_formatNumber 9 ns c hc
      | (subst hc; decide)

theorem dtCh_renderOffset (off : ℤ) (hoff : off ≠ 0) :
    ∀ c ∈ renderOffset off, dtCh c = true := by
  intro c hc
  rw [renderOffset, if_neg hoff] at hc
  by_cases hneg : off < 0 <;> by_cases h60 : off.natAbs % 60 = 0
  all_goals first
    | rw [if_pos hneg, if_pos h60] at hc
    | rw [if_pos hneg, if_neg h60] at hc
    | rw [if_neg hneg, if_pos h60] at hc
    | rw [if_neg hneg, if_neg h60] at hc
  all_goals
    simp only [List.mem_append, List.mem_cons, List.mem_singleton, List.not_mem_nil,
      or_false, false_or] at hc
  all_goals casesm* _ ∨ _
  all_goals rename_i hc
  all_goals first
    | exact dtCh_padStart 2 _ c hc
    | (subst hc; decide)

theorem dtCh_renderTime (h mi s ns off : ℤ) (hoff : off ≠ 0) :
    ∀ c ∈ renderTime h mi s ns off, dtCh c = true := by
  intro c hc
  rw [renderTime, List.mem_append] at hc
  rcases hc with hc | hc
  · exact dtCh_renderLocalTime h mi s ns c hc
  · exact dtCh_renderOffset off hoff c hc

theorem T_not_mem_renderDate (y mo d : ℤ) : 'T' ∉ renderDate y mo d := by
  intro hmem
  have := dtCh_renderDate y mo d 'T' hmem
  exact absurd this (by decide)

theorem T_not_mem_renderTime (h mi s ns off : ℤ) (hoff : off ≠ 0) :
    'T' ∉ renderTime h mi s ns off := by
  intro hmem
  have := dtCh_renderTime h mi s ns off hoff 'T' hmem
  exact absurd this (by decide)

theorem T_not_mem_renderLocalTime (h mi s ns : ℤ) : 'T' ∉ renderLocalTime h mi s ns := by
  intro hmem
  have := dtCh_renderLocalTime h mi s ns 'T' hmem
  exact absurd this (by decide)

/-- Parsing a rendered offset date-time yields the `DateTime` (no zone). -/
theorem decodeOffsetDateTime_render (y mo d h mi s ns off : ℤ)
    (hmo : 0 ≤ mo) (hd : 0 ≤ d) (hh : 0 ≤ h) (hmi : 0 ≤ mi) (hs : 0 ≤ s)
    (hns : 0 < ns) (hoff : off ≠ 0) (hoff60 : off % 60 = 0) :
    decodeOffsetDateTime (renderDate y mo d ++ 'T' :: renderTime h mi s ns off) =
      .ok (.dateTime y mo d h mi s ns (some off) none) := by
  rw [decodeOffsetDateTime]
  rw [jsSplit_append 'T' _ _ (T_not_mem_renderDate y mo d),
    jsSplit_no_sep 'T' _ (T_not_mem_renderTime h mi s ns off hoff)]
  rw [decodeOffsetDateTimeFrom]
  rw [decodeDateParts_renderDate y mo d hmo hd]
  rw [decodeTimeParts_render h mi s ns off hh hmi hs hns hoff hoff60]
  rfl

/-- Parsing a rendered local date-time yields the `LocalDateTime`. -/
theorem decodeLocalDateTime_render (y mo d h mi s ns : ℤ)
    (hmo : 0 ≤ mo) (hd : 0 ≤ d) (hh : 0 ≤ h) (hmi : 0 ≤ mi) (hs : 0 ≤ s)
    (hns : 0 < ns) :
    decodeLocalDateTime (renderDate y mo d ++ 'T' :: renderLocalTime h mi s ns) =
      .ok (.localDateTime y mo d h mi s ns) := by
  rw [decodeLocalDateTime]
  rw [jsSplit_append 'T' _ _ (T_not_mem_renderDate y mo d),
    jsSplit_no_sep 'T' _ (T_not_mem_renderLocalTime h mi s ns)]
  rw [decodeLocalDateTimeFrom]
  rw [decodeDateParts_renderDate y mo d hmo hd]
  rw [decodeLocalTimeParts_render h mi s ns hh hmi hs hns]
  rfl

/-- Parsing a rendered zoned date-time re-attaches the zone and keeps the
offset. -/
theorem decodeZonedDateTime_render (y mo d h mi s ns off : ℤ) (z : JStr)
    (hmo : 0 ≤ mo) (hd : 0 ≤ d) (hh : 0 ≤ h) (hmi : 0 ≤ mi) (hs : 0 ≤ s)
    (hns : 0 < ns) (hoff : off ≠ 0) (hoff60 : off % 60 = 0) (hz : '[' ∉ z) :
    decodeZonedDateTime ((renderDate y mo d ++ 'T' :: renderTime h mi s ns off) ++
        '[' :: (z ++ [']'])) =
      .ok (.dateTime y mo d h mi s ns (some off) (some z)) := by
  have hbr : '[' ∉ renderDate y mo d ++ 'T' :: renderTime h mi s ns off := by
    intro hmem
    rw [List.mem_append, List.mem_cons] at hmem
    rcases hmem with hm | hm | hm
    · exact absurd (dtCh_renderDate y mo d '[' hm) (by decide)
    · cases hm
    · exact absurd (dtCh_renderTime h mi s ns off hoff '[' hm) (by decide)
  have hz2 : '[' ∉ z ++ [']'] := by
    intro hmem
    rw [List.mem_append, List.mem_singleton] at hmem
    rcases hmem with hm | hm
    · exact hz hm
    · cases hm
  rw [decodeZonedDateTime]
  rw [jsSplit_append '[' _ _ hbr, jsSplit_no_sep '[' _ hz2]
  rw [decodeZonedDateTimeFrom]
  rw [show (z ++ [']']).dropLast = z from List.dropLast_concat]
  rw [decodeOffsetDateTime_render y mo d h mi s ns off hmo hd hh hmi hs hns hoff hoff60]
  rfl

/-! ## Duration round trip -/

theorem getLast?_cons_of_ne_nil {α : Type} (c : α) (l : List α) (h : l ≠ []) :
    (c :: l).getLast? = l.getLast? := by
  cases l with
  | nil => exact absurd rfl h
  | cons d ds => rw [List.getLast?_cons_cons]

theorem getLast?_append_right {α : Type} (a b : List α) (hb : b ≠ []) :
    (a ++ b).getLast? = b.getLast? := by
  induction a with
  | nil => rfl
  | cons c cs ih =>
    rw [List.cons_append, getLast?_cons_of_ne_nil c _ (by
      intro hh
      exact hb (List.append_eq_nil.mp hh).2), ih]

theorem getLast?_append_cons {α : Type} (a : List α) (x : α) (b : List α) :
    (a ++ x :: b).getLast? = (x :: b).getLast? :=
  getLast?_append_right a _ (by simp)

theorem intToDigits_natCast (n : ℕ) : intToDigits (n : ℤ) = natToDigits n := by
  rw [intToDigits, if_neg (by omega : ¬(n : ℤ) < 0)]
  simp

theorem durLoop_nil (st : DurState) : durLoop [] st = .ok st := rfl

/-- Digit/fraction characters only extend the `current` accumulator. -/
theorem durLoop_chunk (ds rest : JStr) (st : DurState)
    (hds : ∀ c ∈ ds, isDigitCh c = true ∨ c = '.' ∨ c = ',') :
    durLoop (ds ++ rest) st = durLoop rest { st with current := st.current ++ ds } := by
  induction ds generalizing st with
  | nil =>
    rw [List.nil_append, List.append_nil]
  | cons c cs ih =>
    have hc := hds c (List.mem_cons_self c cs)
    rw [List.cons_append, durLoop]
    rw [if_pos (show (isDigitCh c || c = '.' || c = ',') = true from by
      rcases hc with hc | rfl | rfl
      · simp [hc]
      · simp
      · simp)]
    rw [ih _ (fun x hx => hds x (List.mem_cons_of_mem c hx))]
    rw [List.append_assoc, List.singleton_append]

theorem durLoop_M (rest : JStr) (mo dy se ho cu : JStr) (na : Option JStr) :
    durLoop ('M' :: rest) ⟨mo, dy, se, na, ho, cu, false⟩ =
      durLoop rest ⟨cu, dy, se, na, ho, [], false⟩ := rfl

theorem durLoop_D (rest : JStr) (mo dy se ho cu : JStr) (na : Option JStr) :
    durLoop ('D' :: rest) ⟨mo, dy, se, na, ho, cu, false⟩ =
      durLoop rest ⟨mo, cu, se, na, ho, [], false⟩ := rfl

theorem durLoop_T (rest : JStr) (mo dy se ho cu : JStr) (na : Option JStr) (tp : Bool) :
    durLoop ('T' :: rest) ⟨mo, dy, se, na, ho, cu, tp⟩ =
      durLoop rest ⟨mo, dy, se, na, ho, [], true⟩ := rfl

theorem durLoop_S (rest : JStr) (mo dy se ho cu : JStr) (na : Option JStr) :
    durLoop ('S' :: rest) ⟨mo, dy, se, na, ho, cu, true⟩ =
      durLoop rest ⟨mo, dy, (jsSplit (if ',' ∈ cu then ',' else '.') cu).headD [],
        (jsSplit (if ',' ∈ cu then ',' else '.') cu)[1]?, ho, [], true⟩ := rfl

/-- Parsing a rendered duration recovers the four components (the render
never emits an `H`, so `hour` stays `0`). -/
theorem decodeDuration_render (months days seconds ns : ℤ)
    (hm : 0 ≤ months) (hd : 0 ≤ days) (hs : 0 ≤ seconds) (hns : 0 ≤ ns)
    (hns9 : ns < 1000000000) :
    decodeDuration (renderDuration months days seconds ns) =
      .ok (.duration months days seconds ns) := by
  lift months to ℕ using hm with m
  lift days to ℕ using hd with d
  lift seconds to ℕ using hs with sc
  by_cases hns0 : ns = 0
  · subst hns0
    have hXeq : renderDuration (m : ℤ) (d : ℤ) (sc : ℤ) 0 =
        'P' :: (natToDigits m ++ ('M' :: (natToDigits d ++ ('D' :: ('T' ::
          (natToDigits sc ++ ['S'])))))) := by
      rw [renderDuration, intToDigits_natCast, intToDigits_natCast, intToDigits_natCast,
        show formatNanosecond 0 = [] from rfl]
      simp [List.append_assoc]
    rw [hXeq, decodeDuration,
      show List.drop 1 ('P' :: (natToDigits m ++ ('M' :: (natToDigits d ++ ('D' :: ('T' ::
        (natToDigits sc ++ ['S']))))))) =
        natToDigits m ++ ('M' :: (natToDigits d ++ ('D' :: ('T' ::
        (natToDigits sc ++ ['S']))))) from rfl]
    have hlast : (natToDigits m ++ ('M' :: (natToDigits d ++ ('D' :: ('T' ::
        (natToDigits sc ++ ['S'])))))).getLast? = some 'S' := by
      rw [getLast?_append_cons, getLast?_cons_of_ne_nil _ _ (by simp),
        getLast?_append_cons, List.getLast?_cons_cons,
        getLast?_cons_of_ne_nil _ _ (by simp),
        getLast?_append_right _ _ (by simp)]
      rfl
    rw [decodeDurationFrom, if_neg (by rw [hlast]; intro hh; cases hh)]
    have e1 : durLoop (natToDigits m ++ ('M' :: (natToDigits d ++ ('D' :: ('T' ::
        (natToDigits sc ++ ['S'])))))) durInit =
        durLoop ('M' :: (natToDigits d ++ ('D' :: ('T' :: (natToDigits sc ++ ['S'])))))
          ⟨['0'], ['0'], ['0'], some ['0'], ['0'], natToDigits m, false⟩ :=
      durLoop_chunk _ _ _ (fun c hc => Or.inl (natToDigits_digits m c hc))
    have e2 : durLoop ('M' :: (natToDigits d ++ ('D' :: ('T' :: (natToDigits sc ++ ['S'])))))
          ⟨['0'], ['0'], ['0'], some ['0'], ['0'], natToDigits m, false⟩ =
        durLoop (natToDigits d ++ ('D' :: ('T' :: (natToDigits sc ++ ['S']))))
          ⟨natToDigits m, ['0'], ['0'], some ['0'], ['0'], [], false⟩ :=
      durLoop_M _ _ _ _ _ _ _
    have e3 : durLoop (natToDigits d ++ ('D' :: ('T' :: (natToDigits sc ++ ['S']))))
          ⟨natToDigits m, ['0'], ['0'], some ['0'], ['0'], [], false⟩ =
        durLoop ('D' :: ('T' :: (natToDigits sc ++ ['S'])))
          ⟨natToDigits m, ['0'], ['0'], some ['0'], ['0'], natToDigits d, false⟩ :=
      durLoop_chunk _ _ _ (fun c hc => Or.inl (natToDigits_digits d c hc))
    have e4 : durLoop ('D' :: ('T' :: (natToDigits sc ++ ['S'])))
          ⟨natToDigits m, ['0'], ['0'], some ['0'], ['0'], natToDigits d, false⟩ =
        durLoop ('T' :: (natToDigits sc ++ ['S']))
          ⟨natToDigits m, natToDigits d, ['0'], some ['0'], ['0'], [], false⟩ :=
      durLoop_D _ _ _ _ _ _ _
    have e5 : durLoop ('T' :: (natToDigits sc ++ ['S']))
          ⟨natToDigits m, natToDigits d, ['0'], some ['0'], ['0'], [], false⟩ =
        durLoop (natToDigits sc ++ ['S'])
          ⟨natToDigits m, natToDigits d, ['0'], some ['0'], ['0'], [], true⟩ :=
      durLoop_T _ _ _ _ _ _ _ _
    have e6 : durLoop (natToDigits sc ++ ['S'])
          ⟨natToDigits m, natToDigits d, ['0'], some ['0'], ['0'], [], true⟩ =
        durLoop ['S']
          ⟨natToDigits m, natToDigits d, ['0'], some ['0'], ['0'], natToDigits sc, true⟩ :=
      durLoop_chunk _ _ _ (fun c hc => Or.inl (natToDigits_digits sc c hc))
    have hnc : ',' ∉ natToDigits sc :=
      not_mem_of_digits _ (natToDigits_digits sc) ',' (by decide)
    have hsp : jsSplit '.' (natToDigits sc) = [natToDigits sc] :=
      jsSplit_no_sep '.' _ (not_mem_of_digits _ (natToDigits_digits sc) '.' (by decide))
    have e7 : durLoop ['S']
          ⟨natToDigits m, natToDigits d, ['0'], some ['0'], ['0'], natToDigits sc, true⟩ =
        durLoop [] ⟨natToDigits m, natToDigits d, natToDigits sc, none, ['0'], [], true⟩ := by
      rw [durLoop_S [] (natToDigits m) (natToDigits d) ['0'] ['0'] (natToDigits sc)
        (some ['0'])]
      rw [if_neg hnc, hsp]
      rfl
    rw [e1, e2, e3, e4, e5, e6, e7, durLoop_nil]
    simp only [Except.map]
    have hassm : durAssemble
        ⟨natToDigits m, natToDigits d, natToDigits sc, none, ['0'], [], true⟩ =
        Value.duration (m : ℤ) (d : ℤ) (sc : ℤ) 0 := by
      show Value.duration (parseJsInt (natToDigits m)) (parseJsInt (natToDigits d))
        (parseJsInt ['0'] * 3600 + parseJsInt (natToDigits sc))
        (parseJsInt (padEnd9 ['0'])) = _
      rw [parseJsInt_natToDigits, parseJsInt_natToDigits, parseJsInt_natToDigits,
        show parseJsInt (padEnd9 ['0']) = 0 from by decide,
        show parseJsInt ['0'] = 0 from by decide,
        show (0 : ℤ) * 3600 + (sc : ℤ) = (sc : ℤ) from by omega]
    rw [hassm]
  · have hXeq : renderDuration (m : ℤ) (d : ℤ) (sc : ℤ) ns =
        'P' :: (natToDigits m ++ ('M' :: (natToDigits d ++ ('D' :: ('T' ::
          ((natToDigits sc ++ '.' :: formatNumber 9 ns) ++ ['S'])))))) := by
      rw [renderDuration, intToDigits_natCast, intToDigits_natCast, intToDigits_natCast,
        show formatNanosecond ns = '.' :: formatNumber 9 ns from by
          rw [formatNanosecond, if_neg hns0]]
      simp [List.append_assoc]
    rw [hXeq, decodeDuration,
      show List.drop 1 ('P' :: (natToDigits m ++ ('M' :: (natToDigits d ++ ('D' :: ('T' ::
        ((natToDigits sc ++ '.' :: formatNumber 9 ns) ++ ['S']))))))) =
        natToDigits m ++ ('M' :: (natToDigits d ++ ('D' :: ('T' ::
        ((natToDigits sc ++ '.' :: formatNumber 9 ns) ++ ['S']))))) from rfl]
    have hfd : ∀ c ∈ formatNumber 9 ns, isDigitCh c = true :=
      formatNumber_digits 9 ns (by omega)
    have hlast : (natToDigits m ++ ('M' :: (natToDigits d ++ ('D' :: ('T' ::
        ((natToDigits sc ++ '.' :: formatNumber 9 ns) ++ ['S'])))))).getLast? =
        some 'S' := by
      rw [getLast?_append_cons, getLast?_cons_of_ne_nil _ _ (by simp),
        getLast?_append_cons, List.getLast?_cons_cons,
        getLast?_cons_of_ne_nil _ _ (by simp),
        getLast?_append_right _ _ (by simp)]
      rfl
    rw [decodeDurationFrom, if_neg (by rw [hlast]; intro hh; cases hh)]
    have e1 : durLoop (natToDigits m ++ ('M' :: (natToDigits d ++ ('D' :: ('T' ::
        ((natToDigits sc ++ '.' :: formatNumber 9 ns) ++ ['S'])))))) durInit =
        durLoop ('M' :: (natToDigits d ++ ('D' :: ('T' ::
          ((natToDigits sc ++ '.' :: formatNumber 9 ns) ++ ['S'])))))
          ⟨['0'], ['0'], ['0'], some ['0'], ['0'], natToDigits m, false⟩ :=
      durLoop_chunk _ _ _ (fun c hc => Or.inl (natToDigits_digits m c hc))
    have e2 : durLoop ('M' :: (natToDigits d ++ ('D' :: ('T' ::
          ((natToDigits sc ++ '.' :: formatNumber 9 ns) ++ ['S'])))))
          ⟨['0'], ['0'], ['0'], some ['0'], ['0'], natToDigits m, false⟩ =
        durLoop (natToDigits d ++ ('D' :: ('T' ::
          ((natToDigits sc ++ '.' :: formatNumber 9 ns) ++ ['S']))))
          ⟨natToDigits m, ['0'], ['0'], some ['0'], ['0'], [], false⟩ :=
      durLoop_M _ _ _ _ _ _ _
    have e3 : durLoop (natToDigits d ++ ('D' :: ('T' ::
          ((natToDigits sc ++ '.' :: formatNumber 9 ns) ++ ['S']))))
          ⟨natToDigits m, ['0'], ['0'], some ['0'], ['0'], [], false⟩ =
        durLoop ('D' :: ('T' :: ((natToDigits sc ++ '.' :: formatNumber 9 ns) ++ ['S'])))
          ⟨natToDigits m, ['0'], ['0'], some ['0'], ['0'], natToDigits d, false⟩ :=
      durLoop_chunk _ _ _ (fun c hc => Or.inl (natToDigits_digits d c hc))
    have e4 : durLoop ('D' :: ('T' :: ((natToDigits sc ++ '.' :: formatNumber 9 ns) ++ ['S'])))
          ⟨natToDigits m, ['0'], ['0'], some ['0'], ['0'], natToDigits d, false⟩ =
        durLoop ('T' :: ((natToDigits sc ++ '.' :: formatNumber 9 ns) ++ ['S']))
          ⟨natToDigits m, natToDigits d, ['0'], some ['0'], ['0'], [], false⟩ :=
      durLoop_D _ _ _ _ _ _ _
    have e5 : durLoop ('T' :: ((natToDigits sc ++ '.' :: formatNumber 9 ns) ++ ['S']))
          ⟨natToDigits m, natToDigits d, ['0'], some ['0'], ['0'], [], false⟩ =
        durLoop ((natToDigits sc ++ '.' :: formatNumber 9 ns) ++ ['S'])
          ⟨natToDigits m, natToDigits d, ['0'], some ['0'], ['0'], [], true⟩ :=
      durLoop_T _ _ _ _ _ _ _ _
    have e6 : durLoop ((natToDigits sc ++ '.' :: formatNumber 9 ns) ++ ['S'])
          ⟨natToDigits m, natToDigits d, ['0'], some ['0'], ['0'], [], true⟩ =
        durLoop ['S']
          ⟨natToDigits m, natToDigits d, ['0'], some ['0'], ['0'],
            natToDigits sc ++ '.' :: formatNumber 9 ns, true⟩ :=
      durLoop_chunk _ _ _ (fun c hc => by
        rw [List.mem_append, List.mem_cons] at hc
        rcases hc with hc | rfl | hc
        · exact Or.inl (natToDigits_digits sc c hc)
        · exact Or.inr (Or.inl rfl)
        · exact Or.inl (hfd c hc))
    have hnc : ',' ∉ natToDigits sc ++ '.' :: formatNumber 9 ns := by
      rw [List.mem_append, List.mem_cons]
      intro hcm
      rcases hcm with hcm | hcm | hcm
      · exact absurd (natToDigits_digits sc ',' hcm) (by decide)
      · cases hcm
      · exact absurd (hfd ',' hcm) (by decide)
    have hsp : jsSplit '.' (natToDigits sc ++ '.' :: formatNumber 9 ns) =
        [natToDigits sc, formatNumber 9 ns] := by
      rw [jsSplit_append '.' _ _
        (not_mem_of_digits _ (natToDigits_digits sc) '.' (by decide))]
      rw [jsSplit_no_sep '.' _ (not_mem_of_digits _ hfd '.' (by decide))]
    have e7 : durLoop ['S']
          ⟨natToDigits m, natToDigits d, ['0'], some ['0'], ['0'],
            natToDigits sc ++ '.' :: formatNumber 9 ns, true⟩ =
        durLoop [] ⟨natToDigits m, natToDigits d, natToDigits sc,
          some (formatNumber 9 ns), ['0'], [], true⟩ := by
      rw [durLoop_S [] (natToDigits m) (natToDigits d) ['0'] ['0']
        (natToDigits sc ++ '.' :: formatNumber 9 ns) (some ['0'])]
      rw [if_neg hnc, hsp]
      rfl
    rw [e1, e2, e3, e4, e5, e6, e7, durLoop_nil]
    simp only [Except.map]
    have hassm : durAssemble
        ⟨natToDigits m, natToDigits d, natToDigits sc, some (formatNumber 9 ns),
          ['0'], [], true⟩ =
        Value.duration (m : ℤ) (d : ℤ) (sc : ℤ) ns := by
      show Value.duration (parseJsInt (natToDigits m)) (parseJsInt (natToDigits d))
        (parseJsInt ['0'] * 3600 + parseJsInt (natToDigits sc))
        (parseJsInt (padEnd9 (formatNumber 9 ns))) = _
      rw [parseJsInt_natToDigits, parseJsInt_natToDigits, parseJsInt_natToDigits,
        padEnd9_of_long _ (formatNumber_nine_length ns (by omega)),
        parseJsInt_formatNumber,
        show parseJsInt ['0'] = 0 from by decide,
        show (0 : ℤ) * 3600 + (sc : ℤ) = (sc : ℤ) from by omega]
    rw [hassm]

/-! ## Point round trip -/

theorem dtCh_renderNum (q : JSNum) (h : q.wf = true) :
    ∀ c ∈ renderNum q, dtCh c = true := by
  obtain ⟨neg, ip, frac⟩ := q
  rw [JSNum.wf] at h
  simp only [Bool.and_eq_true, Bool.or_eq_true, bne_iff_ne, ne_eq] at h
  have hdig : ∀ d ∈ frac, d < 10 := by
    intro d hd
    have := List.all_eq_true.mp h.1.1 d hd
    simpa using this
  intro c hc
  rw [renderNum] at hc
  simp only [List.mem_append] at hc
  rcases hc with (hc | hc) | hc
  · by_cases hn : neg
    · rw [if_pos hn, List.mem_singleton] at hc
      subst hc
      decide
    · rw [if_neg hn] at hc
      cases hc
  · have := natToDigits_digits ip c hc
    simp [dtCh, this]
  · by_cases hf : frac.isEmpty
    · rw [if_pos hf] at hc
      cases hc
    · rw [if_neg hf, List.mem_cons] at hc
      rcases hc with rfl | hc
      · decide
      · rw [List.mem_map] at hc
        obtain ⟨d, hd, rfl⟩ := hc
        have := isDigitCh_digitChar d (hdig d hd)
        simp [dtCh, this]

theorem dtCh_intToDigits (i : ℤ) : ∀ c ∈ intToDigits i, dtCh c = true := by
  intro c hc
  rw [intToDigits] at hc
  by_cases hi : i < 0
  · rw [if_pos hi, List.mem_cons] at hc
    rcases hc with rfl | hc
    · decide
    · have := natToDigits_digits _ c hc
      simp [dtCh, this]
  · rw [if_neg hi] at hc
    have := natToDigits_digits _ c hc
    simp [dtCh, this]

theorem isPrefixOf_append (a b : JStr) : a.isPrefixOf (a ++ b) = true := by
  rw [List.isPrefixOf_iff_prefix]
  exact List.prefix_append a b

theorem intToDigits_ne_nil (i : ℤ) : intToDigits i ≠ [] := by
  rw [intToDigits]
  by_cases hi : i < 0
  · rw [if_pos hi]
    simp
  · rw [if_neg hi]
    exact natToDigits_ne_nil _

theorem intFromString_intToDigits (i : ℤ) : intFromString (intToDigits i) = .ok i := by
  rw [intFromString,
    if_neg (fun h => intToDigits_ne_nil i (List.isEmpty_iff.mp h)),
    parseJsInt_intToDigits]

/-- `decodePointFrom` on exactly two chunks is the guarded success
path. -/
theorem decodePointFrom_pair (value c0 c1 : JStr) :
    decodePointFrom value [c0, c1] =
      if decodePointChecks c0 c1 then decodePointCoords c0 c1
      else .ok (.brokenPoint ("Wrong point format. RawValue: " ++ String.mk value)) := rfl

/-- Parsing a rendered 2-D point recovers srid and both coordinates. -/
theorem decodePoint_render2 (srid : ℤ) (qx qy : JSNum)
    (hx : qx.wf = true) (hy : qy.wf = true) :
    decodePoint (renderPoint srid (some qx) (some qy) none) =
      .ok (.point srid (some qx) (some qy) none) := by
  have hxm := dtCh_renderNum qx hx
  have hym := dtCh_renderNum qy hy
  have hsm := dtCh_intToDigits srid
  have hXeq : renderPoint srid (some qx) (some qy) none =
      (String.toList "SRID" ++ '=' :: intToDigits srid) ++ ';' ::
        (String.toList "POINT " ++ '(' ::
          ((renderNum qx ++ ' ' :: renderNum qy) ++ [')'])) := by
    rw [renderPoint]
    show _ ++ (String.toList ";POINT (" ++ renderNum qx ++ ' ' :: renderNum qy ++ [')']) = _
    simp [List.append_assoc]
  rw [hXeq, decodePoint]
  have hnsemi : ';' ∉ String.toList "SRID" ++ '=' :: intToDigits srid := by
    intro hm
    rw [List.mem_append, List.mem_cons] at hm
    rcases hm with hm | hm | hm
    · revert hm
      decide
    · cases hm
    · exact absurd (hsm ';' hm) (by decide)
  have hnsemi2 : ';' ∉ String.toList "POINT " ++ '(' ::
      ((renderNum qx ++ ' ' :: renderNum qy) ++ [')']) := by
    intro hm
    rw [List.mem_append, List.mem_cons] at hm
    rcases hm with hm | hm | hm
    · revert hm
      decide
    · cases hm
    · rw [List.mem_append, List.mem_append, List.mem_cons, List.mem_singleton] at hm
      rcases hm with (hm | hm | hm) | hm
      · exact absurd (hxm ';' hm) (by decide)
      · cases hm
      · exact absurd (hym ';' hm) (by decide)
      · cases hm
  rw [jsSplit_append ';' _ _ hnsemi, jsSplit_no_sep ';' _ hnsemi2]
  have hchk : decodePointChecks (String.toList "SRID" ++ '=' :: intToDigits srid)
      (String.toList "POINT " ++ '(' ::
        ((renderNum qx ++ ' ' :: renderNum qy) ++ [')'])) = true := by
    rw [decodePointChecks]
    have h1 : (String.toList "SRID=").isPrefixOf
        (String.toList "SRID" ++ '=' :: intToDigits srid) = true := by
      have := isPrefixOf_append (String.toList "SRID=") (intToDigits srid)
      exact this
    have h2 : (String.toList "POINT (").isPrefixOf
        (String.toList "POINT " ++ '(' ::
          ((renderNum qx ++ ' ' :: renderNum qy) ++ [')'])) = true := by
      have := isPrefixOf_append (String.toList "POINT (")
        ((renderNum qx ++ ' ' :: renderNum qy) ++ [')'])
      exact this
    rw [h1, h2]
    rfl
  rw [decodePointFrom_pair, if_pos hchk]
  rw [decodePointCoords]
  have hsq : jsSplit '=' (String.toList "SRID" ++ '=' :: intToDigits srid) =
      [String.toList "SRID", intToDigits srid] := by
    rw [jsSplit_append '=' _ _ (by decide),
      jsSplit_no_sep '=' _ (fun hm => absurd (hsm '=' hm) (by decide))]
  have hpq : jsSplit '(' (String.toList "POINT " ++ '(' ::
      ((renderNum qx ++ ' ' :: renderNum qy) ++ [')'])) =
      [String.toList "POINT ", (renderNum qx ++ ' ' :: renderNum qy) ++ [')']] := by
    rw [jsSplit_append '(' _ _ (by decide)]
    rw [jsSplit_no_sep '(' _ (by
      intro hm
      rw [List.mem_append, List.mem_append, List.mem_cons, List.mem_singleton] at hm
      rcases hm with (hm | hm | hm) | hm
      · exact absurd (hxm '(' hm) (by decide)
      · cases hm
      · exact absurd (hym '(' hm) (by decide)
      · cases hm)]
  rw [hsq, hpq]
  rw [show ([String.toList "SRID", intToDigits srid][1]? : Option JStr).getD [] =
    intToDigits srid from rfl]
  rw [show ([String.toList "POINT ", (renderNum qx ++ ' ' :: renderNum qy) ++ [')']][1]? :
    Option JStr).getD [] = (renderNum qx ++ ' ' :: renderNum qy) ++ [')'] from rfl]
  rw [show ((renderNum qx ++ ' ' :: renderNum qy) ++ [')']).dropLast =
    renderNum qx ++ ' ' :: renderNum qy from List.dropLast_concat]
  have hcoords : jsSplit ' ' (renderNum qx ++ ' ' :: renderNum qy) =
      [renderNum qx, renderNum qy] := by
    rw [jsSplit_append ' ' _ _ (fun hm => absurd (hxm ' ' hm) (by decide)),
      jsSplit_no_sep ' ' _ (fun hm => absurd (hym ' ' hm) (by decide))]
  rw [hcoords, intFromString_intToDigits]
  rw [show coordAt [renderNum qx, renderNum qy] 0 = parseFloat (renderNum qx) from rfl,
    show coordAt [renderNum qx, renderNum qy] 1 = parseFloat (renderNum qy) from rfl,
    show coordAt [renderNum qx, renderNum qy] 2 = none from rfl]
  rw [parseFloat_renderNum qx hx, parseFloat_renderNum qy hy]
  rfl

/-- Parsing a rendered 3-D point recovers srid and all three
coordinates. -/
theorem decodePoint_render3 (srid : ℤ) (qx qy qz : JSNum)
    (hx : qx.wf = true) (hy : qy.wf = true) (hz : qz.wf = true) :
    decodePoint (renderPoint srid (some qx) (some qy) (some qz)) =
      .ok (.point srid (some qx) (some qy) (some qz)) := by
  have hxm := dtCh_renderNum qx hx
  have hym := dtCh_renderNum qy hy
  have hzm := dtCh_renderNum qz hz
  have hsm := dtCh_intToDigits srid
  have hXeq : renderPoint srid (some qx) (some qy) (some qz) =
      (String.toList "SRID" ++ '=' :: intToDigits srid) ++ ';' ::
        (String.toList "POINT Z " ++ '(' ::
          ((renderNum qx ++ ' ' :: (renderNum qy ++ ' ' :: renderNum qz)) ++ [')'])) := by
    rw [renderPoint]
    show _ ++ (String.toList ";POINT Z (" ++ renderNum qx ++ ' ' :: renderNum qy ++
      ' ' :: renderNum qz ++ [')']) = _
    simp [List.append_assoc]
  rw [hXeq, decodePoint]
  have hnsemi : ';' ∉ String.toList "SRID" ++ '=' :: intToDigits srid := by
    intro hm
    rw [List.mem_append, List.mem_cons] at hm
    rcases hm with hm | hm | hm
    · revert hm
      decide
    · cases hm
    · exact absurd (hsm ';' hm) (by decide)
  have hmem3 : ∀ c : Char, dtCh c = false → c ≠ ' ' → c ≠ ')' →
      c ∉ (renderNum qx ++ ' ' :: (renderNum qy ++ ' ' :: renderNum qz)) ++ [')'] := by
    intro c hcf hsp hrp hm
    rw [List.mem_append, List.mem_append, List.mem_cons, List.mem_append,
      List.mem_cons, List.mem_singleton] at hm
    rcases hm with (hm | hm | hm | hm | hm) | hm
    · rw [hxm c hm] at hcf
      cases hcf
    · exact hsp hm
    · rw [hym c hm] at hcf
      cases hcf
    · exact hsp hm
    · rw [hzm c hm] at hcf
      cases hcf
    · exact hrp hm
  have hnsemi2 : ';' ∉ String.toList "POINT Z " ++ '(' ::
      ((renderNum qx ++ ' ' :: (renderNum qy ++ ' ' :: renderNum qz)) ++ [')']) := by
    intro hm
    rw [List.mem_append, List.mem_cons] at hm
    rcases hm with hm | hm | hm
    · revert hm
      decide
    · cases hm
    · exact hmem3 ';' (by decide) (by decide) (by decide) hm
  rw [jsSplit_append ';' _ _ hnsemi, jsSplit_no_sep ';' _ hnsemi2]
  have hchk : decodePointChecks (String.toList "SRID" ++ '=' :: intToDigits srid)
      (String.toList "POINT Z " ++ '(' ::
        ((renderNum qx ++ ' ' :: (renderNum qy ++ ' ' :: renderNum qz)) ++ [')'])) =
      true := by
    rw [decodePointChecks]
    have h1 : (String.toList "SRID=").isPrefixOf
        (String.toList "SRID" ++ '=' :: intToDigits srid) = true := by
      have := isPrefixOf_append (String.toList "SRID=") (intToDigits srid)
      exact this
    have h2 : (String.toList "POINT Z (").isPrefixOf
        (String.toList "POINT Z " ++ '(' ::
          ((renderNum qx ++ ' ' :: (renderNum qy ++ ' ' :: renderNum qz)) ++ [')'])) =
        true := by
      have := isPrefixOf_append (String.toList "POINT Z (")
        ((renderNum qx ++ ' ' :: (renderNum qy ++ ' ' :: renderNum qz)) ++ [')'])
      exact this
    rw [h1, h2]
    simp
  rw [decodePointFrom_pair, if_pos hchk]
  rw [decodePointCoords]
  have hsq : jsSplit '=' (String.toList "SRID" ++ '=' :: intToDigits srid) =
      [String.toList "SRID", intToDigits srid] := by
    rw [jsSplit_append '=' _ _ (by decide),
      jsSplit_no_sep '=' _ (fun hm => absurd (hsm '=' hm) (by decide))]
  have hpq : jsSplit '(' (String.toList "POINT Z " ++ '(' ::
      ((renderNum qx ++ ' ' :: (renderNum qy ++ ' ' :: renderNum qz)) ++ [')'])) =
      [String.toList "POINT Z ",
       (renderNum qx ++ ' ' :: (renderNum qy ++ ' ' :: renderNum qz)) ++ [')']] := by
    rw [jsSplit_append '(' _ _ (by decide)]
    rw [jsSplit_no_sep '(' _ (hmem3 '(' (by decide) (by decide) (by decide))]
  rw [hsq, hpq]
  rw [show ([String.toList "SRID", intToDigits srid][1]? : Option JStr).getD [] =
    intToDigits srid from rfl]
  rw [show ([String.toList "POINT Z ",
      (renderNum qx ++ ' ' :: (renderNum qy ++ ' ' :: renderNum qz)) ++ [')']][1]? :
    Option JStr).getD [] =
    (renderNum qx ++ ' ' :: (renderNum qy ++ ' ' :: renderNum qz)) ++ [')'] from rfl]
  rw [show ((renderNum qx ++ ' ' :: (renderNum qy ++ ' ' :: renderNum qz)) ++
      [')']).dropLast =
    renderNum qx ++ ' ' :: (renderNum qy ++ ' ' :: renderNum qz)
    from List.dropLast_concat]
  have hcoords : jsSplit ' ' (renderNum qx ++ ' ' :: (renderNum qy ++ ' ' :: renderNum qz)) =
      [renderNum qx, renderNum qy, renderNum qz] := by
    rw [jsSplit_append ' ' _ _ (fun hm => absurd (hxm ' ' hm) (by decide)),
      jsSplit_append ' ' _ _ (fun hm => absurd (hym ' ' hm) (by decide)),
      jsSplit_no_sep ' ' _ (fun hm => absurd (hzm ' ' hm) (by decide))]
  rw [hcoords, intFromString_intToDigits]
  rw [show coordAt [renderNum qx, renderNum qy, renderNum qz] 0 =
      parseFloat (renderNum qx) from rfl,
    show coordAt [renderNum qx, renderNum qy, renderNum qz] 1 =
      parseFloat (renderNum qy) from rfl,
    show coordAt [renderNum qx, renderNum qy, renderNum qz] 2 =
      parseFloat (renderNum qz) from rfl]
  rw [parseFloat_renderNum qx hx, parseFloat_renderNum qy hy, parseFloat_renderNum qz hz]
  rfl

/-! ## The full codec round trip -/

theorem decodeFloat_renderNum (q : JSNum) (h : q.wf = true) :
    decodeFloat (renderNum q) = .num q := by
  rw [decodeFloat, parseFloat_renderNum q h]

mutual

/-- Encoding then decoding a well-formed native value returns it. -/
theorem roundtrip_value (mode : IntMode) (v : Value) (hwf : Value.Wf mode v = true) :
    ∃ r, encodeValue v = .ok r ∧ decodeValue mode r = .ok v := by
  cases v with
  | null => exact ⟨.null, rfl, rfl⟩
  | bool b => exact ⟨.boolean b, rfl, rfl⟩
  | integer i =>
    refine ⟨.integer (intToDigits i), rfl, ?_⟩
    have hmode : mode ≠ .lossy := by
      simp only [Value.Wf, decide_eq_true_eq] at hwf
      exact hwf
    show Except.ok (decodeIntegerTop mode (intToDigits i)) = _
    cases mode with
    | bigint =>
      rw [show decodeIntegerTop .bigint (intToDigits i) =
        .integer (parseJsInt (intToDigits i)) from rfl, parseJsInt_intToDigits]
    | lossless =>
      rw [show decodeIntegerTop .lossless (intToDigits i) =
        .integer (parseJsInt (intToDigits i)) from rfl, parseJsInt_intToDigits]
    | lossy => exact absurd rfl hmode
  | num q =>
    refine ⟨.float (renderNum q), rfl, ?_⟩
    have hq : q.wf = true := by
      simp only [Value.Wf] at hwf
      exact hwf
    show Except.ok (decodeFloat (renderNum q)) = _
    rw [decodeFloat_renderNum q hq]
  | nan => simp [Value.Wf] at hwf
  | str s => exact ⟨.string s, rfl, rfl⟩
  | bytes bs =>
    refine ⟨.base64 (b64encode bs), rfl, ?_⟩
    have hb : ∀ b ∈ bs, b < 256 := by
      simp only [Value.Wf, List.all_eq_true, decide_eq_true_eq] at hwf
      exact hwf
    show decodeBase64 (b64encode bs) = _
    rw [decodeBase64, b64decode_b64encode bs hb]
  | list xs =>
    have hx : Value.WfList mode xs = true := by
      simp only [Value.Wf] at hwf
      exact hwf
    obtain ⟨rs, he, hd⟩ := roundtrip_list mode xs hx
    refine ⟨.list rs, ?_, ?_⟩
    · show Except.map RawValue.list (encodeList xs) = _
      rw [he]
      rfl
    · show Except.map Value.list (decodeList mode rs) = _
      rw [hd]
      rfl
  | map entries =>
    have hx : Value.WfMap mode entries = true := by
      simp only [Value.Wf] at hwf
      exact hwf
    obtain ⟨rs, he, hd⟩ := roundtrip_map mode entries hx
    refine ⟨.map rs, ?_, ?_⟩
    · show Except.map RawValue.map (encodeMapEntries entries) = _
      rw [he]
      rfl
    · show Except.map Value.map (decodeMapEntries mode rs) = _
      rw [hd]
      rfl
  | date y mo d =>
    simp only [Value.Wf, Bool.and_eq_true, decide_eq_true_eq] at hwf
    refine ⟨.date (renderDate y mo d), rfl, ?_⟩
    show decodeDate (renderDate y mo d) = _
    rw [decodeDate, decodeDateParts_renderDate y mo d hwf.1 hwf.2]
    rfl
  | time h mi s ns off =>
    simp only [Value.Wf, tcompsWf, offWf, Bool.and_eq_true, decide_eq_true_eq,
      ne_eq] at hwf
    obtain ⟨⟨⟨⟨⟨hh, hmi⟩, hs⟩, hns⟩, hns9⟩, hoff, hoff60⟩ := hwf
    refine ⟨.time (renderTime h mi s ns off), rfl, ?_⟩
    show decodeTime (renderTime h mi s ns off) = _
    rw [decodeTime, decodeTimeParts_render h mi s ns off hh hmi hs hns hoff hoff60]
    rfl
  | localTime h mi s ns =>
    simp only [Value.Wf, tcompsWf, Bool.and_eq_true, decide_eq_true_eq] at hwf
    obtain ⟨⟨⟨⟨hh, hmi⟩, hs⟩, hns⟩, hns9⟩ := hwf
    refine ⟨.localTime (renderLocalTime h mi s ns), rfl, ?_⟩
    show decodeLocalTime (renderLocalTime h mi s ns) = _
    rw [decodeLocalTime, decodeLocalTimeParts_render h mi s ns hh hmi hs hns]
    rfl
  | dateTime y mo d h mi s ns off zone =>
    cases off with
    | none => simp [Value.Wf] at hwf
    | some o =>
      simp only [Value.Wf, tcompsWf, offWf, Bool.and_eq_true, decide_eq_true_eq,
        ne_eq] at hwf
      cases zone with
      | none =>
        obtain ⟨⟨⟨⟨hmo, hd⟩, ⟨⟨⟨⟨hh, hmi⟩, hs⟩, hns⟩, hns9⟩⟩, ho, ho60⟩, -⟩ := hwf
        refine ⟨.offsetDateTime (renderDate y mo d ++ 'T' :: renderTime h mi s ns o),
          rfl, ?_⟩
        show decodeOffsetDateTime (renderDate y mo d ++ 'T' :: renderTime h mi s ns o) = _
        rw [decodeOffsetDateTime_render y mo d h mi s ns o hmo hd hh hmi hs hns ho ho60]
      | some z =>
        obtain ⟨⟨⟨⟨hmo, hd⟩, ⟨⟨⟨⟨hh, hmi⟩, hs⟩, hns⟩, hns9⟩⟩, ho, ho60⟩, hz⟩ := hwf
        refine ⟨.zonedDateTime (renderDate y mo d ++ 'T' :: renderTime h mi s ns o ++
          '[' :: z ++ [']']), rfl, ?_⟩
        show decodeZonedDateTime (renderDate y mo d ++ 'T' :: renderTime h mi s ns o ++
          '[' :: z ++ [']']) = _
        rw [show (renderDate y mo d ++ 'T' :: renderTime h mi s ns o ++
            '[' :: z ++ [']']) =
          ((renderDate y mo d ++ 'T' :: renderTime h mi s ns o) ++
            '[' :: (z ++ [']'])) from by simp]
        rw [decodeZonedDateTime_render y mo d h mi s ns o z hmo hd hh hmi hs hns ho
          ho60 (by simpa using hz)]
  | localDateTime y mo d h mi s ns =>
    simp only [Value.Wf, tcompsWf, Bool.and_eq_true, decide_eq_true_eq] at hwf
    obtain ⟨⟨hmo, hd⟩, ⟨⟨⟨⟨hh, hmi⟩, hs⟩, hns⟩, hns9⟩⟩ := hwf
    refine ⟨.localDateTime (renderDate y mo d ++ 'T' :: renderLocalTime h mi s ns),
      rfl, ?_⟩
    show decodeLocalDateTime (renderDate y mo d ++ 'T' :: renderLocalTime h mi s ns) = _
    rw [decodeLocalDateTime_render y mo d h mi s ns hmo hd hh hmi hs hns]
  | duration months days seconds ns =>
    simp only [Value.Wf, Bool.and_eq_true, decide_eq_true_eq] at hwf
    obtain ⟨⟨⟨⟨hm, hd⟩, hs⟩, hns⟩, hns9⟩ := hwf
    refine ⟨.duration (renderDuration months days seconds ns), rfl, ?_⟩
    show decodeDuration (renderDuration months days seconds ns) = _
    rw [decodeDuration_render months days seconds ns hm hd hs hns hns9]
  | point srid x y z =>
    cases x with
    | none => simp [Value.Wf] at hwf
    | some qx =>
      cases y with
      | none => simp [Value.Wf] at hwf
      | some qy =>
        cases z with
        | none =>
          simp only [Value.Wf, Bool.and_eq_true] at hwf
          refine ⟨.point (renderPoint srid (some qx) (some qy) none), rfl, ?_⟩
          show decodePoint (renderPoint srid (some qx) (some qy) none) = _
          rw [decodePoint_render2 srid qx qy (by simpa using hwf.1.1) (by simpa using hwf.1.2)]
        | some qz =>
          simp only [Value.Wf, Bool.and_eq_true] at hwf
          refine ⟨.point (renderPoint srid (some qx) (some qy) (some qz)), rfl, ?_⟩
          show decodePoint (renderPoint srid (some qx) (some qy) (some qz)) = _
          rw [decodePoint_render3 srid qx qy qz (by simpa using hwf.1.1) (by simpa using hwf.1.2) (by simpa using hwf.2)]
  | brokenPoint msg => simp [Value.Wf] at hwf
  | node a b c => simp [Value.Wf] at hwf
  | relationship a b c d e => simp [Value.Wf] at hwf
  | path a b c => simp [Value.Wf] at hwf

/-- Round trip over a list of values. -/
theorem roundtrip_list (mode : IntMode) (xs : List Value)
    (hwf : Value.WfList mode xs = true) :
    ∃ rs, encodeList xs = .ok rs ∧ decodeList mode rs = .ok xs := by
  cases xs with
  | nil => exact ⟨[], rfl, rfl⟩
  | cons x rest =>
    simp only [Value.WfList, Bool.and_eq_true] at hwf
    obtain ⟨r, he, hd⟩ := roundtrip_value mode x hwf.1
    obtain ⟨rs, hes, hds⟩ := roundtrip_list mode rest hwf.2
    refine ⟨r :: rs, ?_, ?_⟩
    · rw [encodeList, he, hes]
      rfl
    · rw [decodeList, hd, hds]
      rfl

/-- Round trip over map entries. -/
theorem roundtrip_map (mode : IntMode) (xs : List (JStr × Value))
    (hwf : Value.WfMap mode xs = true) :
    ∃ rs, encodeMapEntries xs = .ok rs ∧ decodeMapEntries mode rs = .ok xs := by
  cases xs with
  | nil => exact ⟨[], rfl, rfl⟩
  | cons kx rest =>
    obtain ⟨k, x⟩ := kx
    simp only [Value.WfMap, Bool.and_eq_true] at hwf
    obtain ⟨r, he, hd⟩ := roundtrip_value mode x hwf.1
    obtain ⟨rs, hes, hds⟩ := roundtrip_map mode rest hwf.2
    refine ⟨(k, r) :: rs, ?_, ?_⟩
    · rw [encodeMapEntries, he, hes]
      rfl
    · rw [decodeMapEntries, hd, hds]
      rfl

end

/-! ## The `Z` offset designator -/

/-- A `Z`-designated time string parses with no offset: the `Z` branch of
`_decodeTime` never builds a `Time`. -/
theorem decodeTimeParts_render_zero (h mi s ns : ℤ) (hh : 0 ≤ h) (hmi : 0 ≤ mi)
    (hs : 0 ≤ s) (hns : 0 < ns) :
    decodeTimeParts (renderTime h mi s ns 0) = .ok (h, mi, s, ns, none) := by
  have hnd : ∀ (w : ℕ) (i : ℤ), 0 ≤ i → ∀ c, isDigitCh c = false → c ∉ formatNumber w i :=
    fun w i hi c hc => not_mem_formatNumber_of_nonneg w i hi c hc
  have hstr : renderTime h mi s ns 0 =
      formatNumber 2 h ++ ':' :: (formatNumber 2 mi ++ ':' ::
        (formatNumber 2 s ++ '.' :: (formatNumber 9 ns ++ ['Z']))) := by
    rw [renderTime, renderLocalTime, renderOffset, formatNanosecond]
    rw [if_neg (show ¬ns = 0 by omega), if_pos rfl]
    simp
  rw [hstr, decodeTimeParts]
  rw [jsSplit_three ':' _ _ _ (hnd 2 h hh ':' (by decide)) (hnd 2 mi hmi ':' (by decide))
    (by
      intro hmem
      simp only [List.mem_append, List.mem_cons] at hmem
      rcases hmem with hm | hm | hm | hm | hm
      · exact hnd 2 s hs ':' (by decide) hm
      · cases hm
      · exact hnd 9 ns (by omega) ':' (by decide) hm
      · cases hm
      · simp at hm)]
  rw [decodeTimeFromParts]
  rw [jsSplit_append '.' _ _ (hnd 2 s hs '.' (by decide)),
    jsSplit_no_sep '.' _ (by
      intro hmem
      rw [List.mem_append, List.mem_singleton] at hmem
      rcases hmem with hm | hm
      · exact hnd 9 ns (by omega) '.' (by decide) hm
      · cases hm)]
  rw [decodeTimeWithSub, decodeTimeWithNano]
  rw [if_neg (by
    intro hmem
    rw [List.mem_append, List.mem_singleton] at hmem
    rcases hmem with hm | hm
    · exact hnd 9 ns (by omega) '+' (by decide) hm
    · cases hm)]
  rw [if_neg (by
    intro hmem
    rw [List.mem_append, List.mem_singleton] at hmem
    rcases hmem with hm | hm
    · exact hnd 9 ns (by omega) '-' (by decide) hm
    · cases hm)]
  rw [if_pos (by simp : 'Z' ∈ formatNumber 9 ns ++ ['Z'])]
  rw [show (formatNumber 9 ns ++ ['Z']).dropLast = formatNumber 9 ns
    from List.dropLast_concat]
  rw [padEnd9_of_long _ (formatNumber_nine_length ns (by omega))]
  rw [parseJsInt_formatNumber, parseJsInt_formatNumber, parseJsInt_formatNumber,
    parseJsInt_formatNumber]

/-- `T` does not occur in a `Z`-suffixed rendered time. -/
theorem T_not_mem_renderTime_zero (h mi s ns : ℤ) : 'T' ∉ renderTime h mi s ns 0 := by
  intro hmem
  rw [renderTime, List.mem_append] at hmem
  rcases hmem with hm | hm
  · exact T_not_mem_renderLocalTime h mi s ns hm
  · rw [renderOffset, if_pos rfl, List.mem_singleton] at hm
    cases hm

/-- A `Z`-suffixed date-time parses to a `LocalDateTime`, not a
`DateTime` with offset `0`. -/
theorem decodeOffsetDateTime_render_zero (y mo d h mi s ns : ℤ)
    (hmo : 0 ≤ mo) (hd : 0 ≤ d) (hh : 0 ≤ h) (hmi : 0 ≤ mi) (hs : 0 ≤ s)
    (hns : 0 < ns) :
    decodeOffsetDateTime (renderDate y mo d ++ 'T' :: renderTime h mi s ns 0) =
      .ok (.localDateTime y mo d h mi s ns) := by
  rw [decodeOffsetDateTime]
  rw [jsSplit_append 'T' _ _ (T_not_mem_renderDate y mo d),
    jsSplit_no_sep 'T' _ (T_not_mem_renderTime_zero h mi s ns)]
  rw [decodeOffsetDateTimeFrom]
  rw [decodeDateParts_renderDate y mo d hmo hd]
  rw [decodeTimeParts_render_zero h mi s ns hh hmi hs hns]
  rfl

/-! ## Path reconstruction -/

/-- The relationship/node tail of a flat alternating path sequence. -/
def pairsFlat : List (Value × Value) → List Value
  | [] => []
  | (r, n) :: rest => r :: n :: pairsFlat rest

/-- A flat alternating `[node, rel, node, …, node]` sequence: the start
node followed by (relationship, node) pairs. -/
def altFlat (n0 : Value) (pairs : List (Value × Value)) : List Value :=
  n0 :: pairsFlat pairs

/-- The segments `_decodePath` is expected to build: each pair closes a
`(start, relationship, end)` triple, chaining on the end node. -/
def expectedSegs : Value → List (Value × Value) → List (Value × Value × Value)
  | _, [] => []
  | n0, (r, n) :: rest => (n0, r, n) :: expectedSegs n rest

/-- The last node of a flat alternating sequence. -/
def lastNode : Value → List (Value × Value) → Value
  | n0, [] => n0
  | _, (_, n) :: rest => lastNode n rest

theorem foldl_pathStep (pairs : List (Value × Value)) :
    ∀ (m : Value) (segs : List (Value × Value × Value)),
      (List.foldl pathStep ⟨[m], segs⟩ (pairsFlat pairs)).segments =
        segs ++ expectedSegs m pairs := by
  induction pairs with
  | nil =>
    intro m segs
    rw [show pairsFlat [] = [] from rfl, List.foldl_nil,
      show expectedSegs m [] = [] from rfl, List.append_nil]
  | cons p rest ih =>
    obtain ⟨r, n⟩ := p
    intro m segs
    rw [show pairsFlat ((r, n) :: rest) = r :: n :: pairsFlat rest from rfl]
    rw [List.foldl_cons, List.foldl_cons]
    rw [show pathStep ⟨[m], segs⟩ r = ⟨[m, r], segs⟩ from rfl]
    rw [show pathStep ⟨[m, r], segs⟩ n = ⟨[n], segs ++ [(m, r, n)]⟩ from rfl]
    rw [ih n (segs ++ [(m, r, n)])]
    rw [show expectedSegs m ((r, n) :: rest) = (m, r, n) :: expectedSegs n rest from rfl]
    simp

theorem pathSegments_altFlat (n0 : Value) (pairs : List (Value × Value)) :
    pathSegments (altFlat n0 pairs) = expectedSegs n0 pairs := by
  rw [pathSegments, altFlat, List.foldl_cons,
    show pathStep ⟨[], []⟩ n0 = ⟨[n0], []⟩ from rfl, foldl_pathStep pairs n0 []]
  rw [List.nil_append]

theorem altFlat_head (n0 : Value) (pairs : List (Value × Value)) :
    (altFlat n0 pairs).head? = some n0 := rfl

theorem altFlat_ne_nil (n0 : Value) (pairs : List (Value × Value)) :
    altFlat n0 pairs ≠ [] := by
  rw [altFlat]
  simp

theorem altFlat_getLast (pairs : List (Value × Value)) :
    ∀ n0 : Value, (altFlat n0 pairs).getLast? = some (lastNode n0 pairs) := by
  induction pairs with
  | nil => intro n0; rfl
  | cons p rest ih =>
    obtain ⟨r, n⟩ := p
    intro n0
    rw [show altFlat n0 ((r, n) :: rest) = n0 :: r :: altFlat n rest from rfl]
    rw [getLast?_cons_of_ne_nil _ _ (by simp),
      getLast?_cons_of_ne_nil _ _ (altFlat_ne_nil n rest), ih n]
    rw [show lastNode n0 ((r, n) :: rest) = lastNode n rest from rfl]

theorem altFlat_length (pairs : List (Value × Value)) :
    ∀ n0 : Value, (altFlat n0 pairs).length = 2 * pairs.length + 1 := by
  induction pairs with
  | nil => intro n0; rfl
  | cons p rest ih =>
    obtain ⟨r, n⟩ := p
    intro n0
    rw [show altFlat n0 ((r, n) :: rest) = n0 :: r :: altFlat n rest from rfl]
    rw [List.length_cons, List.length_cons, ih n, List.length_cons]
    ring

theorem expectedSegs_length (pairs : List (Value × Value)) :
    ∀ n0 : Value, (expectedSegs n0 pairs).length = pairs.length := by
  induction pairs with
  | nil => intro n0; rfl
  | cons p rest ih =>
    obtain ⟨r, n⟩ := p
    intro n0
    rw [show expectedSegs n0 ((r, n) :: rest) = (n0, r, n) :: expectedSegs n rest from rfl]
    rw [List.length_cons, ih n, List.length_cons]

theorem expectedSegs_adj (pairs : List (Value × Value)) :
    ∀ (n0 : Value) (i : ℕ), i + 1 < (expectedSegs n0 pairs).length →
      ((expectedSegs n0 pairs)[i + 1]?).map (fun seg => seg.1) =
      ((expectedSegs n0 pairs)[i]?).map (fun seg => seg.2.2) := by
  induction pairs with
  | nil =>
    intro n0 i h
    rw [show expectedSegs n0 [] = [] from rfl] at h
    simp at h
  | cons p rest ih =>
    obtain ⟨r, n⟩ := p
    intro n0 i h
    cases i with
    | zero =>
      cases rest with
      | nil =>
        rw [show expectedSegs n0 [(r, n)] = [(n0, r, n)] from rfl] at h
        simp at h
      | cons p2 rest2 =>
        obtain ⟨r2, n2⟩ := p2
        rw [show expectedSegs n0 ((r, n) :: (r2, n2) :: rest2) =
          (n0, r, n) :: (n, r2, n2) :: expectedSegs n2 rest2 from rfl]
        rw [List.getElem?_cons_succ, List.getElem?_cons_zero, List.getElem?_cons_zero]
        rfl
    | succ j =>
      rw [show expectedSegs n0 ((r, n) :: rest) =
        (n0, r, n) :: expectedSegs n rest from rfl] at h ⊢
      have h2 : j + 1 < (expectedSegs n rest).length := by
        rw [List.length_cons] at h
        omega
      rw [List.getElem?_cons_succ, List.getElem?_cons_succ]
      exact ih n j h2

/-- C6: path reconstruction. For every flat alternating
`[node, rel, node, …, node]` sequence, `_decodePath` yields a path whose
start is the first element, whose end is the last, whose segment count is
`(flat length − 1) / 2`, and where each segment's end node is the next
segment's start node. -/
theorem path_reconstruction (mode : IntMode) (xs : List RawValue)
    (n0 : Value) (pairs : List (Value × Value))
    (hdec : decodeList mode xs = .ok (altFlat n0 pairs)) :
    decodeValue mode (.path xs) =
      .ok (.path (some n0) (some (lastNode n0 pairs)) (expectedSegs n0 pairs)) ∧
    (expectedSegs n0 pairs).length = ((altFlat n0 pairs).length - 1) / 2 ∧
    ∀ i, i + 1 < (expectedSegs n0 pairs).length →
      ((expectedSegs n0 pairs)[i + 1]?).map (fun seg => seg.1) =
      ((expectedSegs n0 pairs)[i]?).map (fun seg => seg.2.2) := by
  refine ⟨?_, ?_, expectedSegs_adj pairs n0⟩
  · have h1 : decodeValue mode (RawValue.path xs) =
        Except.bind (decodeList mode xs) (fun decoded =>
          .ok (.path decoded.head? decoded.getLast? (pathSegments decoded))) := rfl
    rw [h1, hdec]
    show Except.ok (Value.path (altFlat n0 pairs).head? (altFlat n0 pairs).getLast?
      (pathSegments (altFlat n0 pairs))) = _
    rw [altFlat_head, altFlat_getLast pairs n0, pathSegments_altFlat]
  · rw [expectedSegs_length pairs n0, altFlat_length pairs n0]
    omega

/-- The raw wire form of the 5-element example path. -/
def pathExampleRaw : List RawValue :=
  [RawValue.node (String.toList "a") [] [],
   RawValue.relationship (String.toList "r1") (String.toList "a") (String.toList "b")
     (String.toList "KNOWS") [],
   RawValue.node (String.toList "b") [] [],
   RawValue.relationship (String.toList "r2") (String.toList "b") (String.toList "c")
     (String.toList "KNOWS") [],
   RawValue.node (String.toList "c") [] []]

/-- The decoded start node of the example path. -/
def pathExampleStart : Value := Value.node (String.toList "a") [] []

/-- The decoded (relationship, node) pairs of the example path. -/
def pathExamplePairs : List (Value × Value) :=
  [(Value.relationship (String.toList "r1") (String.toList "a") (String.toList "b")
      (String.toList "KNOWS") [], Value.node (String.toList "b") [] []),
   (Value.relationship (String.toList "r2") (String.toList "b") (String.toList "c")
      (String.toList "KNOWS") [], Value.node (String.toList "c") [] [])]

/-- C6 witness: the concrete 5-element `[node, rel, node, rel, node]`
path decodes to two boundary-sharing segments. -/
theorem path_reconstruction_witness :
    decodeList IntMode.lossless pathExampleRaw =
      .ok (altFlat pathExampleStart pathExamplePairs) ∧
    (decodeValue IntMode.lossless (.path pathExampleRaw) =
      .ok (.path (some pathExampleStart)
        (some (lastNode pathExampleStart pathExamplePairs))
        (expectedSegs pathExampleStart pathExamplePairs)) ∧
    (expectedSegs pathExampleStart pathExamplePairs).length =
      ((altFlat pathExampleStart pathExamplePairs).length - 1) / 2 ∧
    ∀ i, i + 1 < (expectedSegs pathExampleStart pathExamplePairs).length →
      ((expectedSegs pathExampleStart pathExamplePairs)[i + 1]?).map (fun seg => seg.1) =
      ((expectedSegs pathExampleStart pathExamplePairs)[i]?).map (fun seg => seg.2.2)) :=
  ⟨rfl, path_reconstruction IntMode.lossless pathExampleRaw pathExampleStart
    pathExamplePairs rfl⟩

/-! ## Claim theorems: codec round trip, numeric cards, points, `Z` times -/

/-- C1: value codec round trip. For every well-formed native value —
booleans, integers under a non-lossy mode, finite decimal numbers,
strings, byte arrays, lists, maps, the temporal kinds in the decoder's
grammar (non-zero nanoseconds, non-zero whole-minute offsets) and points —
decoding the encoding returns the value. -/
theorem codec_roundtrip (mode : IntMode) (v : Value) (hwf : Value.Wf mode v = true) :
    ∃ r, encodeValue v = .ok r ∧ decodeValue mode r = .ok v :=
  roundtrip_value mode v hwf

/-- C1 witness: a concrete list of an integer, a negative decimal and a
string round trips under lossless integers. -/
theorem codec_roundtrip_witness :
    Value.Wf IntMode.lossless (Value.list [Value.integer 7, Value.num ⟨true, 2, [5]⟩,
      Value.str (String.toList "hi")]) = true ∧
    ∃ r, encodeValue (Value.list [Value.integer 7, Value.num ⟨true, 2, [5]⟩,
        Value.str (String.toList "hi")]) = .ok r ∧
      decodeValue IntMode.lossless r = .ok (Value.list [Value.integer 7,
        Value.num ⟨true, 2, [5]⟩, Value.str (String.toList "hi")]) :=
  ⟨rfl, codec_roundtrip IntMode.lossless (Value.list [Value.integer 7,
    Value.num ⟨true, 2, [5]⟩, Value.str (String.toList "hi")]) rfl⟩

/-- C1 counterexample: a `Time` with UTC offset `0` — representable and
encodable — does not round trip: its offset renders as `Z`, which the
decoder turns into a `LocalTime`. -/
theorem codec_roundtrip_counterexample :
    (encodeValue (Value.time 12 50 35 556000000 0)).map (decodeValue IntMode.lossless) =
      .ok (.ok (Value.localTime 12 50 35 556000000)) ∧
    Value.localTime 12 50 35 556000000 ≠ Value.time 12 50 35 556000000 0 := by
  constructor
  · show Except.ok (decodeTime (renderTime 12 50 35 556000000 0)) = _
    rw [decodeTime, decodeTimeParts_render_zero 12 50 35 556000000 (by decide)
      (by decide) (by decide) (by decide)]
    rfl
  · intro hcontra
    cases hcontra

/-- Is the wire value an `Integer` card? -/
def RawValue.isIntegerCard : RawValue → Bool
  | .integer _ => true
  | _ => false

/-- C5: numeric parameter cards. A typed integer encodes to an `Integer`
card with its exact decimal digits; a plain number encodes to a `Float`
card with its decimal string; `Float` cards come only from plain numbers
(or `NaN`) and `Integer` cards only from typed integers. -/
theorem encode_numeric_cards (i : ℤ) (q : JSNum) :
    encodeValue (Value.integer i) = .ok (.integer (intToDigits i)) ∧
    parseJsInt (intToDigits i) = i ∧
    encodeValue (Value.num q) = .ok (.float (renderNum q)) ∧
    (∀ v r, encodeValue v = .ok (RawValue.float r) →
      (v = Value.nan ∧ r = String.toList "NaN") ∨
        ∃ p, v = Value.num p ∧ r = renderNum p) ∧
    (∀ v r, encodeValue v = .ok (RawValue.integer r) →
      ∃ j, v = Value.integer j ∧ r = intToDigits j) := by
  refine ⟨rfl, parseJsInt_intToDigits i, rfl, ?_, ?_⟩
  · intro v r heq
    cases v with
    | num p =>
      right
      rw [show encodeValue (Value.num p) = Except.ok (RawValue.float (renderNum p))
        from rfl] at heq
      simp only [Except.ok.injEq, RawValue.float.injEq] at heq
      exact ⟨p, rfl, heq.symm⟩
    | nan =>
      left
      rw [show encodeValue Value.nan =
        Except.ok (RawValue.float (String.toList "NaN")) from rfl] at heq
      simp only [Except.ok.injEq, RawValue.float.injEq] at heq
      exact ⟨rfl, heq.symm⟩
    | list xs =>
      exfalso
      rw [show encodeValue (Value.list xs) = Except.map RawValue.list (encodeList xs)
        from rfl] at heq
      cases henc : encodeList xs with
      | ok rs => rw [henc] at heq; simp [Except.map] at heq
      | error e => rw [henc] at heq; simp [Except.map] at heq
    | map entries =>
      exfalso
      rw [show encodeValue (Value.map entries) =
        Except.map RawValue.map (encodeMapEntries entries) from rfl] at heq
      cases henc : encodeMapEntries entries with
      | ok rs => rw [henc] at heq; simp [Except.map] at heq
      | error e => rw [henc] at heq; simp [Except.map] at heq
    | dateTime y mo d h mi s ns off zone =>
      exfalso
      cases off with
      | none => simp [encodeValue] at heq
      | some o =>
        cases zone with
        | none => simp [encodeValue] at heq
        | some z => simp [encodeValue] at heq
    | null => simp [encodeValue] at heq
    | bool b => simp [encodeValue] at heq
    | integer j => simp [encodeValue] at heq
    | str t => simp [encodeValue] at heq
    | bytes bs => simp [encodeValue] at heq
    | date y mo d => simp [encodeValue] at heq
    | time h mi s ns off => simp [encodeValue] at heq
    | localTime h mi s ns => simp [encodeValue] at heq
    | localDateTime y mo d h mi s ns => simp [encodeValue] at heq
    | duration months days seconds ns => simp [encodeValue] at heq
    | point srid x y z => simp [encodeValue] at heq
    | brokenPoint msg => simp [encodeValue] at heq
    | node a b c => simp [encodeValue] at heq
    | relationship a b c d e => simp [encodeValue] at heq
    | path a b c => simp [encodeValue] at heq
  · intro v r heq
    cases v with
    | integer j =>
      rw [show encodeValue (Value.integer j) =
        Except.ok (RawValue.integer (intToDigits j)) from rfl] at heq
      simp only [Except.ok.injEq, RawValue.integer.injEq] at heq
      exact ⟨j, rfl, heq.symm⟩
    | list xs =>
      exfalso
      rw [show encodeValue (Value.list xs) = Except.map RawValue.list (encodeList xs)
        from rfl] at heq
      cases henc : encodeList xs with
      | ok rs => rw [henc] at heq; simp [Except.map] at heq
      | error e => rw [henc] at heq; simp [Except.map] at heq
    | map entries =>
      exfalso
      rw [show encodeValue (Value.map entries) =
        Except.map RawValue.map (encodeMapEntries entries) from rfl] at heq
      cases henc : encodeMapEntries entries with
      | ok rs => rw [henc] at heq; simp [Except.map] at heq
      | error e => rw [henc] at heq; simp [Except.map] at heq
    | dateTime y mo d h mi s ns off zone =>
      exfalso
      cases off with
      | none => simp [encodeValue] at heq
      | some o =>
        cases zone with
        | none => simp [encodeValue] at heq
        | some z => simp [encodeValue] at heq
    | null => simp [encodeValue] at heq
    | bool b => simp [encodeValue] at heq
    | num p => simp [encodeValue] at heq
    | nan => simp [encodeValue] at heq
    | str t => simp [encodeValue] at heq
    | bytes bs => simp [encodeValue] at heq
    | date y mo d => simp [encodeValue] at heq
    | time h mi s ns off => simp [encodeValue] at heq
    | localTime h mi s ns => simp [encodeValue] at heq
    | localDateTime y mo d h mi s ns => simp [encodeValue] at heq
    | duration months days seconds ns => simp [encodeValue] at heq
    | point srid x y z => simp [encodeValue] at heq
    | brokenPoint msg => simp [encodeValue] at heq
    | node a b c => simp [encodeValue] at heq
    | relationship a b c d e => simp [encodeValue] at heq
    | path a b c => simp [encodeValue] at heq

/-- C5 counterexample: the plain number `5` encodes to a `Float` card,
not an `Integer` card. -/
theorem encode_numeric_cards_counterexample :
    encodeValue (Value.num ⟨false, 5, []⟩) = .ok (.float (renderNum ⟨false, 5, []⟩)) ∧
    (encodeValue (Value.num ⟨false, 5, []⟩)).map RawValue.isIntegerCard = .ok false :=
  ⟨rfl, rfl⟩

/-- C8: point decoding. A rendered 2-D point decodes to the point with
that srid and those coordinates; a `;`-split that fails the structural
checks (arity, `SRID=`, `POINT (`/`POINT Z (` prefixes) yields a broken
point value carrying the protocol message — no throw on that path; but
an input that passes the checks with nothing after the `=` reaches
`int('')`, which throws the number-format error, crashing the
surrounding decode. -/
theorem point_decoding (srid : ℤ) (qx qy : JSNum) (value : JStr)
    (hx : qx.wf = true) (hy : qy.wf = true) :
    decodePoint (renderPoint srid (some qx) (some qy) none) =
      .ok (.point srid (some qx) (some qy) none) ∧
    (∀ c0 c1, jsSplit ';' value = [c0, c1] → decodePointChecks c0 c1 = false →
      decodePoint value =
        .ok (.brokenPoint ("Wrong point format. RawValue: " ++ String.mk value))) ∧
    ((jsSplit ';' value).length ≠ 2 →
      decodePoint value =
        .ok (.brokenPoint ("Wrong point format. RawValue: " ++ String.mk value))) ∧
    (∀ c0 c1, jsSplit ';' value = [c0, c1] → decodePointChecks c0 c1 = true →
      ((jsSplit '=' c0)[1]?).getD [] = [] →
      decodePoint value = .error (.jsError "number format error: empty string")) := by
  refine ⟨decodePoint_render2 srid qx qy hx hy, ?_, ?_, ?_⟩
  · intro c0 c1 hsplit hchk
    rw [decodePoint, hsplit, decodePointFrom_pair, if_neg (by simp [hchk])]
  · intro hlen
    rw [decodePoint]
    rcases hsp : jsSplit ';' value with _ | ⟨a, _ | ⟨b, _ | ⟨c, t⟩⟩⟩
    · rfl
    · rfl
    · exfalso
      apply hlen
      rw [hsp]
      rfl
    · rfl
  · intro c0 c1 hsplit hchk hsrid
    rw [decodePoint, hsplit, decodePointFrom_pair, if_pos hchk, decodePointCoords, hsrid]
    rfl

/-- C8 witness: the rendered point `SRID=7203;POINT (1.2 3.4)` decodes
back to srid `7203`, `x = 1.2`, `y = 3.4`; on the input `nope` the
checks-failure conjuncts and the empty-srid conjunct hold (vacuously or
by the broken-point result). -/
theorem point_decoding_witness :
    (JSNum.wf ⟨false, 1, [2]⟩ = true ∧ JSNum.wf ⟨false, 3, [4]⟩ = true) ∧
    (decodePoint (renderPoint 7203 (some ⟨false, 1, [2]⟩) (some ⟨false, 3, [4]⟩) none) =
      .ok (.point 7203 (some ⟨false, 1, [2]⟩) (some ⟨false, 3, [4]⟩) none) ∧
    (∀ c0 c1, jsSplit ';' (String.toList "nope") = [c0, c1] →
      decodePointChecks c0 c1 = false →
      decodePoint (String.toList "nope") =
        .ok (.brokenPoint ("Wrong point format. RawValue: " ++
          String.mk (String.toList "nope")))) ∧
    ((jsSplit ';' (String.toList "nope")).length ≠ 2 →
      decodePoint (String.toList "nope") =
        .ok (.brokenPoint ("Wrong point format. RawValue: " ++
          String.mk (String.toList "nope")))) ∧
    (∀ c0 c1, jsSplit ';' (String.toList "nope") = [c0, c1] →
      decodePointChecks c0 c1 = true →
      ((jsSplit '=' c0)[1]?).getD [] = [] →
      decodePoint (String.toList "nope") =
        .error (.jsError "number format error: empty string"))) :=
  ⟨⟨rfl, rfl⟩, point_decoding 7203 ⟨false, 1, [2]⟩ ⟨false, 3, [4]⟩
    (String.toList "nope") rfl rfl⟩

/-- C8 counterexample: two deviating strings refute the claim.
`SRID=7203;POINT (1.2 3.4` (no closing parenthesis) decodes to a real
point — srid `7203`, `x = 1.2`, `y = 3.0` — not to a broken point; and
`SRID=;POINT (1.2 3.4)` passes every structural check and then throws
`int('')`'s number-format error, so decoding is not shielded from
malformed input either. -/
theorem point_decoding_counterexample :
    decodePoint (String.toList "SRID=7203;POINT (1.2 3.4") =
      .ok (.point 7203 (some ⟨false, 1, [2]⟩) (some ⟨false, 3, []⟩) none) ∧
    decodePoint (String.toList "SRID=;POINT (1.2 3.4)") =
      .error (.jsError "number format error: empty string") := ⟨rfl, rfl⟩

/-- A `Z`-designated wire time with an arbitrary digit fraction parses
with no offset: the `Z` branch never yields one. The hour, minute and
second chunks must be nonempty — `_decodeTime` feeds them to `int(...)`,
which throws on the empty string — while the fraction may be empty (it
is right-padded to nine digits before the parse). -/
theorem decodeTimeParts_zulu (A B C D : JStr)
    (hA : ∀ c ∈ A, isDigitCh c = true) (hB : ∀ c ∈ B, isDigitCh c = true)
    (hC : ∀ c ∈ C, isDigitCh c = true) (hD : ∀ c ∈ D, isDigitCh c = true) :
    decodeTimeParts (A ++ ':' :: (B ++ ':' :: (C ++ '.' :: (D ++ ['Z'])))) =
      .ok (parseJsInt A, parseJsInt B, parseJsInt C, parseJsInt (padEnd9 D), none) := by
  rw [decodeTimeParts]
  rw [jsSplit_three ':' _ _ _ (not_mem_of_digits A hA ':' (by decide))
    (not_mem_of_digits B hB ':' (by decide))
    (by
      intro hmem
      simp only [List.mem_append, List.mem_cons] at hmem
      rcases hmem with hm | hm | hm | hm | hm
      · exact not_mem_of_digits C hC ':' (by decide) hm
      · cases hm
      · exact not_mem_of_digits D hD ':' (by decide) hm
      · cases hm
      · cases hm)]
  rw [decodeTimeFromParts]
  rw [jsSplit_append '.' _ _ (not_mem_of_digits C hC '.' (by decide)),
    jsSplit_no_sep '.' _ (by
      intro hmem
      rw [List.mem_append, List.mem_singleton] at hmem
      rcases hmem with hm | hm
      · exact not_mem_of_digits D hD '.' (by decide) hm
      · cases hm)]
  rw [decodeTimeWithSub, decodeTimeWithNano]
  rw [if_neg (by
    intro hmem
    rw [List.mem_append, List.mem_singleton] at hmem
    rcases hmem with hm | hm
    · exact not_mem_of_digits D hD '+' (by decide) hm
    · cases hm)]
  rw [if_neg (by
    intro hmem
    rw [List.mem_append, List.mem_singleton] at hmem
    rcases hmem with hm | hm
    · exact not_mem_of_digits D hD '-' (by decide) hm
    · cases hm)]
  rw [if_pos (by simp : 'Z' ∈ D ++ ['Z'])]
  rw [show (D ++ ['Z']).dropLast = D from List.dropLast_concat]

theorem T_not_mem_zuluTime (A B C D : JStr)
    (hA : ∀ c ∈ A, isDigitCh c = true) (hB : ∀ c ∈ B, isDigitCh c = true)
    (hC : ∀ c ∈ C, isDigitCh c = true) (hD : ∀ c ∈ D, isDigitCh c = true) :
    'T' ∉ A ++ ':' :: (B ++ ':' :: (C ++ '.' :: (D ++ ['Z']))) := by
  intro hmem
  simp only [List.mem_append, List.mem_cons] at hmem
  rcases hmem with hm | hm | hm | hm | hm | hm | hm | hm | hm
  · exact not_mem_of_digits A hA 'T' (by decide) hm
  · cases hm
  · exact not_mem_of_digits B hB 'T' (by decide) hm
  · cases hm
  · exact not_mem_of_digits C hC 'T' (by decide) hm
  · cases hm
  · exact not_mem_of_digits D hD 'T' (by decide) hm
  · cases hm
  · cases hm

/-- C10: the `Z` designator. For every `Z`-designated time wire string in
the decoder's grammar — nonempty digit hour/minute/second chunks, a
possibly empty digit fraction, so `<H>:<M>:<S>.<F>Z` covers `.556`,
`.00102` and `.0` fractions — `_decodeTime` returns a `LocalTime` (the
fraction right-padded to nanoseconds), never a `Time` with UTC offset
`0`, and `_decodeOffsetDateTime` on the `Z`-suffixed date-time returns a
`LocalDateTime`, never a `DateTime`. -/
theorem time_zulu_designator (dateStr A B C D : JStr) (y mo d : ℤ)
    (hA : ∀ c ∈ A, isDigitCh c = true) (hB : ∀ c ∈ B, isDigitCh c = true)
    (hC : ∀ c ∈ C, isDigitCh c = true) (hD : ∀ c ∈ D, isDigitCh c = true)
    (_hA0 : A ≠ []) (_hB0 : B ≠ []) (_hC0 : C ≠ [])
    (hdate : decodeDateParts dateStr = .ok (y, mo, d)) (hT : 'T' ∉ dateStr) :
    decodeTime (A ++ ':' :: (B ++ ':' :: (C ++ '.' :: (D ++ ['Z'])))) =
      .ok (.localTime (parseJsInt A) (parseJsInt B) (parseJsInt C)
        (parseJsInt (padEnd9 D))) ∧
    decodeOffsetDateTime (dateStr ++ 'T' ::
        (A ++ ':' :: (B ++ ':' :: (C ++ '.' :: (D ++ ['Z']))))) =
      .ok (.localDateTime y mo d (parseJsInt A) (parseJsInt B) (parseJsInt C)
        (parseJsInt (padEnd9 D))) := by
  constructor
  · rw [decodeTime, decodeTimeParts_zulu A B C D hA hB hC hD]
    rfl
  · rw [decodeOffsetDateTime, jsSplit_append 'T' _ _ hT,
      jsSplit_no_sep 'T' _ (T_not_mem_zuluTime A B C D hA hB hC hD),
      decodeOffsetDateTimeFrom, hdate, decodeTimeParts_zulu A B C D hA hB hC hD]
    rfl

/-- C10 witness: the exemplar `12:50:35.556Z` decodes to
`LocalTime 12:50:35.556000000` and `2015-06-24T12:50:35.556Z` to the
matching `LocalDateTime`. -/
theorem time_zulu_designator_witness :
    ((∀ c ∈ String.toList "12", isDigitCh c = true) ∧
     (∀ c ∈ String.toList "50", isDigitCh c = true) ∧
     (∀ c ∈ String.toList "35", isDigitCh c = true) ∧
     (∀ c ∈ String.toList "556", isDigitCh c = true) ∧
     decodeDateParts (String.toList "2015-06-24") = .ok (2015, 6, 24) ∧
     'T' ∉ String.toList "2015-06-24") ∧
    (decodeTime (String.toList "12:50:35.556Z") =
      .ok (.localTime 12 50 35 556000000) ∧
     decodeOffsetDateTime (String.toList "2015-06-24T12:50:35.556Z") =
      .ok (.localDateTime 2015 6 24 12 50 35 556000000)) :=
  ⟨⟨by decide, by decide, by decide, by decide, rfl, by decide⟩,
   time_zulu_designator (String.toList "2015-06-24") (String.toList "12")
     (String.toList "50") (String.toList "35") (String.toList "556") 2015 6 24
     (by decide) (by decide) (by decide) (by decide) (by decide) (by decide)
     (by decide) rfl (by decide)⟩

/-- C10 counterexample: a `Z`-designated time string without a fraction
is in the claim's universal scope but outside the decoder's grammar —
`_decodeTime("12:50:35Z")` splits on `.` into a single chunk, leaving the
nanosecond/offset chunk `undefined`, and the subsequent method call
throws a `TypeError` instead of returning a `LocalTime`. -/
theorem time_zulu_designator_counterexample :
    decodeTime (String.toList "12:50:35Z") = .error DecodeErr.typeError := rfl

end QueryApi
